import Mathlib

/-!
Verification of the anyproxyai protocol-adaptation core.

Go values decoded from JSON (`map[string]interface{}`, `[]interface{}`,
`string`, numbers, booleans, `nil`) are embedded as the inductive type `J`.
Go maps are modelled as association lists with unique-key insertion
(`insertKV`), and map iteration order is modelled as the list order.
Go strings are modelled as Lean `String` at character granularity.
-/

namespace AnyProxy

/-- Embedding of decoded Go/JSON values (`interface{}` after `json.Unmarshal`). -/
inductive J where
  | null : J
  | bool : Bool → J
  | num : Int → J
  | str : String → J
  | arr : List J → J
  | obj : List (String × J) → J
  deriving Repr

mutual
/-- Decidable equality on `J`, written out by hand because nested inductives do
not get a derived `DecidableEq`. -/
def jDecEq : (a b : J) → Decidable (a = b)
  | J.null, J.null => isTrue rfl
  | J.bool a, J.bool b =>
      match decEq a b with
      | isTrue h => isTrue (h ▸ rfl)
      | isFalse h => isFalse (fun he => h (J.bool.inj he))
  | J.num a, J.num b =>
      match decEq a b with
      | isTrue h => isTrue (h ▸ rfl)
      | isFalse h => isFalse (fun he => h (J.num.inj he))
  | J.str a, J.str b =>
      match decEq a b with
      | isTrue h => isTrue (h ▸ rfl)
      | isFalse h => isFalse (fun he => h (J.str.inj he))
  | J.arr a, J.arr b =>
      match jDecEqList a b with
      | isTrue h => isTrue (h ▸ rfl)
      | isFalse h => isFalse (fun he => h (J.arr.inj he))
  | J.obj a, J.obj b =>
      match jDecEqKVs a b with
      | isTrue h => isTrue (h ▸ rfl)
      | isFalse h => isFalse (fun he => h (J.obj.inj he))
  | J.null, J.bool _ => isFalse (fun h => J.noConfusion h)
  | J.null, J.num _ => isFalse (fun h => J.noConfusion h)
  | J.null, J.str _ => isFalse (fun h => J.noConfusion h)
  | J.null, J.arr _ => isFalse (fun h => J.noConfusion h)
  | J.null, J.obj _ => isFalse (fun h => J.noConfusion h)
  | J.bool _, J.null => isFalse (fun h => J.noConfusion h)
  | J.bool _, J.num _ => isFalse (fun h => J.noConfusion h)
  | J.bool _, J.str _ => isFalse (fun h => J.noConfusion h)
  | J.bool _, J.arr _ => isFalse (fun h => J.noConfusion h)
  | J.bool _, J.obj _ => isFalse (fun h => J.noConfusion h)
  | J.num _, J.null => isFalse (fun h => J.noConfusion h)
  | J.num _, J.bool _ => isFalse (fun h => J.noConfusion h)
  | J.num _, J.str _ => isFalse (fun h => J.noConfusion h)
  | J.num _, J.arr _ => isFalse (fun h => J.noConfusion h)
  | J.num _, J.obj _ => isFalse (fun h => J.noConfusion h)
  | J.str _, J.null => isFalse (fun h => J.noConfusion h)
  | J.str _, J.bool _ => isFalse (fun h => J.noConfusion h)
  | J.str _, J.num _ => isFalse (fun h => J.noConfusion h)
  | J.str _, J.arr _ => isFalse (fun h => J.noConfusion h)
  | J.str _, J.obj _ => isFalse (fun h => J.noConfusion h)
  | J.arr _, J.null => isFalse (fun h => J.noConfusion h)
  | J.arr _, J.bool _ => isFalse (fun h => J.noConfusion h)
  | J.arr _, J.num _ => isFalse (fun h => J.noConfusion h)
  | J.arr _, J.str _ => isFalse (fun h => J.noConfusion h)
  | J.arr _, J.obj _ => isFalse (fun h => J.noConfusion h)
  | J.obj _, J.null => isFalse (fun h => J.noConfusion h)
  | J.obj _, J.bool _ => isFalse (fun h => J.noConfusion h)
  | J.obj _, J.num _ => isFalse (fun h => J.noConfusion h)
  | J.obj _, J.str _ => isFalse (fun h => J.noConfusion h)
  | J.obj _, J.arr _ => isFalse (fun h => J.noConfusion h)

def jDecEqList : (a b : List J) → Decidable (a = b)
  | [], [] => isTrue rfl
  | [], _ :: _ => isFalse (fun h => List.noConfusion h)
  | _ :: _, [] => isFalse (fun h => List.noConfusion h)
  | a :: as, b :: bs =>
      match jDecEq a b with
      | isFalse h => isFalse (fun he => h (List.cons.inj he).1)
      | isTrue h1 =>
          match jDecEqList as bs with
          | isTrue h2 => isTrue (h1 ▸ h2 ▸ rfl)
          | isFalse h => isFalse (fun he => h (List.cons.inj he).2)

def jDecEqKVs : (a b : List (String × J)) → Decidable (a = b)
  | [], [] => isTrue rfl
  | [], _ :: _ => isFalse (fun h => List.noConfusion h)
  | _ :: _, [] => isFalse (fun h => List.noConfusion h)
  | (k, a) :: as, (l, b) :: bs =>
      match decEq k l with
      | isFalse h => isFalse (fun he => h (congrArg Prod.fst (List.cons.inj he).1))
      | isTrue hk =>
          match jDecEq a b with
          | isFalse h => isFalse (fun he => h (congrArg Prod.snd (List.cons.inj he).1))
          | isTrue ha =>
              match jDecEqKVs as bs with
              | isTrue ht => isTrue (hk ▸ ha ▸ ht ▸ rfl)
              | isFalse h => isFalse (fun he => h (List.cons.inj he).2)
end

instance : DecidableEq J := jDecEq

/-- Go map lookup `m[k]` returning `none` when the key is absent. -/
def jGet (kvs : List (String × J)) (k : String) : Option J :=
  match kvs with
  | [] => none
  | (k', v) :: rest => if k' = k then some v else jGet rest k

/-- Go `m[k]` as a value: a missing key yields the `nil` interface, i.e. `J.null`. -/
def jGetD (kvs : List (String × J)) (k : String) : J :=
  (jGet kvs k).getD J.null

/-- Go type assertion `m[k].(string)`: `some s` only when present and a string. -/
def jGetStr (kvs : List (String × J)) (k : String) : Option String :=
  match jGet kvs k with
  | some (J.str s) => some s
  | _ => none

/-- Go `s, _ := m[k].(string)`: the zero value `""` when absent or not a string. -/
def jStrD (kvs : List (String × J)) (k : String) : String :=
  (jGetStr kvs k).getD ""

/-- Go map assignment `m[k] = v`: replace the first binding of `k`, else append. -/
def insertKV : List (String × J) → String → J → List (String × J)
  | [], k, v => [(k, v)]
  | (k', v') :: rest, k, v =>
      if k' = k then (k, v) :: rest else (k', v') :: insertKV rest k v

/-- Assign every binding of `src` into `dst` in order (Go `for k, v := range src`). -/
def insertAll (dst : List (String × J)) : List (String × J) → List (String × J)
  | [] => dst
  | (k, v) :: rest => insertAll (insertKV dst k v) rest

/-- Keys of an association list. -/
def kvKeys (kvs : List (String × J)) : List String := kvs.map Prod.fst

/-! ## SignatureStore (internal/adapters/signature_store.go) -/

/-- `SignatureEntry` from signature_store.go; times are abstract instants (Nat). -/
structure SignatureEntry where
  signature : String
  expiresAt : Nat
  createdAt : Nat
  deriving Repr, DecidableEq

/-- The session store's map, keyed by session fingerprint. -/
abbrev SigStore := List (String × SignatureEntry)

/-- Map lookup in the session store. -/
def sigLookup : SigStore → String → Option SignatureEntry
  | [], _ => none
  | (k, e) :: rest, sid => if k = sid then some e else sigLookup rest sid

/-- Map assignment in the session store. -/
def sigInsert : SigStore → String → SignatureEntry → SigStore
  | [], sid, e => [(sid, e)]
  | (k, e') :: rest, sid, e =>
      if k = sid then (sid, e) :: rest else (k, e') :: sigInsert rest sid e

/-- `StoreSignatureForSession` (signature_store.go:107-126): no-op on empty
session id or empty signature; otherwise insert, or replace only when the new
signature is strictly longer; `ExpiresAt = now + ttl`. -/
def StoreSignatureForSession (store : SigStore) (ttl now : Nat)
    (sessionID signature : String) : SigStore :=
  if sessionID = "" ∨ signature = "" then store
  else
    match sigLookup store sessionID with
    | none => sigInsert store sessionID ⟨signature, now + ttl, now⟩
    | some entry =>
        if entry.signature.length < signature.length then
          sigInsert store sessionID ⟨signature, now + ttl, now⟩
        else store

/-- `GetSignatureForSession` (signature_store.go:129-148): expired or absent
entries read as the empty string. -/
def GetSignatureForSession (store : SigStore) (now : Nat) (sessionID : String) : String :=
  if sessionID = "" then ""
  else
    match sigLookup store sessionID with
    | none => ""
    | some entry => if entry.expiresAt < now then "" else entry.signature

/-- Length of the signature currently stored for a fingerprint (0 when absent). -/
def storedSigLen (store : SigStore) (sid : String) : Nat :=
  match sigLookup store sid with
  | some e => e.signature.length
  | none => 0

/-- One store operation: `(ttl, now, sessionID, signature)`. -/
abbrev StoreOp := Nat × Nat × String × String

/-- Run a sequence of `StoreSignatureForSession` calls. -/
def runStores (store : SigStore) (ops : List StoreOp) : SigStore :=
  ops.foldl (fun st op => StoreSignatureForSession st op.1 op.2.1 op.2.2.1 op.2.2.2) store

/-- The legacy global-string shim `StoreThoughtSignature`
(cursor_adapter.go:20-32): state is the single global signature string. -/
def StoreThoughtSignature (globalSig sig : String) : String :=
  if sig = "" then globalSig
  else if globalSig = "" ∨ globalSig.length < sig.length then sig
  else globalSig

/-! ## Thinking-block validity and filter (internal/adapters/cursor_adapter.go) -/

/-- `MinSignatureLength` (cursor_adapter.go:49). -/
def MinSignatureLength : Nat := 50

/-- ASCII whitespace, for Go `strings.TrimSpace`. -/
def isSpaceChar (c : Char) : Bool :=
  c = ' ' || c = '\t' || c = '\n' || c = '\r' || c = '\x0b' || c = '\x0c'

/-- Go `strings.TrimSpace`: drop whitespace from both ends. -/
def trimSpace (s : String) : String :=
  String.mk (((s.data.dropWhile isSpaceChar).reverse.dropWhile isSpaceChar).reverse)

/-- The thinking/signature checks of `HasValidSignature` after the type guard. -/
def hasValidSigCore (block : List (String × J)) : Bool :=
  let thinking := jStrD block "thinking"
  let signature := jStrD block "signature"
  if thinking = "" && !(signature = "") then true
  else if !(signature = "") && MinSignatureLength ≤ signature.length then true
  else false

/-- `HasValidSignature` (cursor_adapter.go:650-669): a block whose `type` is a
string other than `"thinking"` is always valid; otherwise the signature rules apply. -/
def HasValidSignature (block : List (String × J)) : Bool :=
  match jGetStr block "type" with
  | some t => if t = "thinking" then hasValidSigCore block else true
  | none => hasValidSigCore block

/-- Copy a Go map while skipping one key (`for k, v := range m { if k != key ... }`). -/
def removeKey (kvs : List (String × J)) (k : String) : List (String × J) :=
  kvs.filter (fun p => p.1 ≠ k)

/-- The cleaned replacement for a valid thinking block (cursor_adapter.go:704-712):
only `type`, `thinking` and a non-empty string `signature` survive. -/
def cleanedThinking (blockMap : List (String × J)) : List (String × J) :=
  let base := [("type", J.str "thinking"), ("thinking", jGetD blockMap "thinking")]
  match jGetStr blockMap "signature" with
  | some sig => if sig = "" then base else base ++ [("signature", J.str sig)]
  | none => base

/-- Per-block step of `FilterInvalidThinkingBlocks` (cursor_adapter.go:694-746);
returns the zero or one blocks appended to `newBlocks`. -/
def filterOneBlock (globalSig : String) (block : J) : List J :=
  match block with
  | J.obj blockMap =>
      if jStrD blockMap "type" = "thinking" then
        if HasValidSignature blockMap then
          [J.obj (cleanedThinking blockMap)]
        else if !(globalSig = "") && MinSignatureLength ≤ globalSig.length then
          [J.obj [("type", J.str "thinking"),
                  ("thinking", J.str (jStrD blockMap "thinking")),
                  ("signature", J.str globalSig)]]
        else
          let thinkingText := jStrD blockMap "thinking"
          if trimSpace thinkingText = "" then []
          else [J.obj [("type", J.str "text"), ("text", J.str thinkingText)]]
      else
        [J.obj (removeKey blockMap "cache_control")]
  | other => [other]

/-- Per-message step of `FilterInvalidThinkingBlocks` (cursor_adapter.go:677-757). -/
def filterMessage (globalSig : String) (msg : J) : J :=
  match msg with
  | J.obj msgMap =>
      let role := jStrD msgMap "role"
      if role = "assistant" ∨ role = "model" then
        match jGet msgMap "content" with
        | some (J.arr content) =>
            let newBlocks := (content.map (filterOneBlock globalSig)).flatten
            let newBlocks :=
              if newBlocks = [] then [J.obj [("type", J.str "text"), ("text", J.str "")]]
              else newBlocks
            J.obj (insertKV msgMap "content" (J.arr newBlocks))
        | _ => msg
      else msg
  | other => other

/-- `FilterInvalidThinkingBlocks` (cursor_adapter.go:673-764), as the message
transformation it performs; `globalSig` is the signature fetched from the store. -/
def FilterInvalidThinkingBlocks (globalSig : String) (messages : List J) : List J :=
  messages.map (filterMessage globalSig)

/-! ## Schema sanitizers (cursor_adapter.go:545-635, unnamed/part_004:239-263) -/

/-- The `skipFields` set of `sanitizeJSONSchema` (cursor_adapter.go:556-561). -/
def skipField (k : String) : Bool :=
  k = "additionalProperties" || k = "$schema" || k = "title" || k = "default"

/-- Is the value the empty JSON array? -/
def isEmptyArrJ : J → Bool
  | J.arr [] => true
  | _ => false

/-- Is the value a JSON array? -/
def isArrJ : J → Bool
  | J.arr _ => true
  | _ => false

mutual
/-- `sanitizeJSONSchema` (cursor_adapter.go:545-635). `nil` becomes the empty
object; non-map values pass through; maps are rebuilt entry by entry. -/
def sanitizeJSONSchema : J → J
  | J.null => J.obj []
  | J.obj kvs => J.obj (sanEntries [] kvs)
  | v => v

/-- The `for key, value := range schemaMap` loop building `result`. -/
def sanEntries (acc : List (String × J)) : List (String × J) → List (String × J)
  | [] => acc
  | (k, v) :: rest => sanEntries (sanStep acc k v) rest

/-- One iteration of the loop body: skip empty `required`, skip `skipFields`,
inline the first usable `anyOf` branch, special-case `properties`, recurse into
nested maps and into map elements of arrays. -/
def sanStep (acc : List (String × J)) (k : String) (v : J) : List (String × J) :=
  match v with
  | J.arr opts =>
      if k = "required" && opts.isEmpty then acc
      else if skipField k then acc
      else if k = "anyOf" then insertAll acc (sanAnyOf opts)
      else insertKV acc k (J.arr (sanArr opts))
  | J.obj w =>
      if skipField k then acc
      else if k = "properties" then insertKV acc k (J.obj (sanProps w))
      else insertKV acc k (J.obj (sanEntries [] w))
  | other =>
      if skipField k then acc else insertKV acc k other

/-- The `anyOf` loop (cursor_adapter.go:579-601): the sanitized entries of the
first map option that is not `type:"null"` and carries no `not` key; `[]` when
no option qualifies (merging `[]` leaves the result untouched, as in the source). -/
def sanAnyOf : List J → List (String × J)
  | [] => []
  | J.obj w :: rest =>
      if jGet w "type" = some (J.str "null") then sanAnyOf rest
      else if (jGet w "not").isSome then sanAnyOf rest
      else sanEntries [] w
  | _ :: rest => sanAnyOf rest

/-- The `properties` special case: sanitize every property value. -/
def sanProps : List (String × J) → List (String × J)
  | [] => []
  | (n, pv) :: rest => (n, sanitizeJSONSchema pv) :: sanProps rest

/-- Array handling: sanitize map elements, keep everything else. -/
def sanArr : List J → List J
  | [] => []
  | J.obj w :: rest => J.obj (sanEntries [] w) :: sanArr rest
  | x :: rest => x :: sanArr rest
end

/-- The keys dropped by `cleanGeminiSchema` (unnamed/part_004:244). -/
def geminiSkipField (k : String) : Bool :=
  k = "additionalProperties" || k = "default" || k = "$schema"

mutual
/-- `cleanGeminiSchema` (unnamed/part_004:239-263). -/
def cleanGeminiSchema : J → J
  | J.obj kvs => J.obj (cleanGEntries [] kvs)
  | v => v

/-- Its map loop building `cleaned`. -/
def cleanGEntries (acc : List (String × J)) : List (String × J) → List (String × J)
  | [] => acc
  | (k, v) :: rest =>
      cleanGEntries
        (if geminiSkipField k then acc
         else match v with
          | J.obj w => insertKV acc k (J.obj (cleanGEntries [] w))
          | J.arr xs => insertKV acc k (J.arr (cleanGArr xs))
          | other => insertKV acc k other)
        rest

/-- Its array handling: `cleanGeminiSchema` applied to every element. -/
def cleanGArr : List J → List J
  | [] => []
  | x :: rest => cleanGeminiSchema x :: cleanGArr rest
end

/-- No two bindings share a key (always true of decoded Go maps). -/
def keysNodupJ : List (String × J) → Bool
  | [] => true
  | (k, _) :: rest => !(kvKeys rest).contains k && keysNodupJ rest

mutual
/-- `SanV v`: `sanitizeJSONSchema` leaves `v` unchanged (sanitized form). -/
def SanV : J → Bool
  | J.null => false
  | J.obj kvs => keysNodupJ kvs && SanKVs kvs
  | _ => true

/-- Every entry of the map is in sanitized form. -/
def SanKVs : List (String × J) → Bool
  | [] => true
  | (k, v) :: rest => SanEntry k v && SanKVs rest

/-- One map entry is in sanitized form: not a dropped key, not an empty
`required`, not an array-valued `anyOf`, and its value is sanitized in the way
the loop would revisit it. -/
def SanEntry (k : String) (v : J) : Bool :=
  !skipField k && !(k = "required" && isEmptyArrJ v) && !(k = "anyOf" && isArrJ v) &&
  (match v with
   | J.obj w =>
       if k = "properties" then SanProps w else keysNodupJ w && SanKVs w
   | J.arr xs => SanArrOK xs
   | _ => true)

/-- Every property value is a fixed point of the full sanitizer. -/
def SanProps : List (String × J) → Bool
  | [] => true
  | (_, pv) :: rest => SanV pv && SanProps rest

/-- Every map element of the array is in sanitized form. -/
def SanArrOK : List J → Bool
  | [] => true
  | J.obj w :: rest => keysNodupJ w && SanKVs w && SanArrOK rest
  | _ :: rest => SanArrOK rest
end

mutual
/-- None of the four dropped keys, and no empty `required`, occur in any object
the sanitizer's recursion reaches (property names are exempt; arrays nested
directly inside arrays are not reached). -/
def noBannedV : J → Bool
  | J.obj kvs => noBannedKVs kvs
  | _ => true

def noBannedKVs : List (String × J) → Bool
  | [] => true
  | (k, v) :: rest => noBannedEntry k v && noBannedKVs rest

def noBannedEntry (k : String) (v : J) : Bool :=
  !skipField k && !(k = "required" && isEmptyArrJ v) &&
  (match v with
   | J.obj w => if k = "properties" then noBannedProps w else noBannedKVs w
   | J.arr xs => noBannedArr xs
   | _ => true)

def noBannedProps : List (String × J) → Bool
  | [] => true
  | (_, pv) :: rest =>
      (match pv with
       | J.obj w => noBannedKVs w
       | _ => true) && noBannedProps rest

def noBannedArr : List J → Bool
  | [] => true
  | J.obj w :: rest => noBannedKVs w && noBannedArr rest
  | _ :: rest => noBannedArr rest
end

mutual
/-- None of `cleanGeminiSchema`'s three dropped keys occur in any object its
recursion reaches. -/
def gCleanV : J → Bool
  | J.obj kvs => gCleanKVs kvs
  | _ => true

def gCleanKVs : List (String × J) → Bool
  | [] => true
  | (k, v) :: rest => !geminiSkipField k && gCleanVal v && gCleanKVs rest

def gCleanVal : J → Bool
  | J.obj w => gCleanKVs w
  | J.arr xs => gCleanArr xs
  | _ => true

def gCleanArr : List J → Bool
  | [] => true
  | J.obj w :: rest => gCleanKVs w && gCleanArr rest
  | _ :: rest => gCleanArr rest
end

/-! ## Four-step thinking rule, as claimed and as implemented -/

/-- Generic per-message scaffold shared by the rule-level filters: transform
each content block of an assistant/model message with array content, inserting
an empty text block when filtering empties the message. -/
def ruleFilterMessage (blockStep : J → List J) (msg : J) : J :=
  match msg with
  | J.obj msgMap =>
      let role := jStrD msgMap "role"
      if role = "assistant" ∨ role = "model" then
        match jGet msgMap "content" with
        | some (J.arr content) =>
            let newBlocks := (content.map blockStep).flatten
            let newBlocks :=
              if newBlocks.isEmpty then [J.obj [("type", J.str "text"), ("text", J.str "")]]
              else newBlocks
            J.obj (insertKV msgMap "content" (J.arr newBlocks))
        | _ => msg
      else msg
  | other => other

/-- The four-step rule exactly as the claim words it: keep stripping only cache
hints; repair when a stored signature of length ≥ 50 exists; demote when the
thinking text is non-empty; else drop. -/
def claimedThinkingStep (storedSig : String) (blockMap : List (String × J)) : List J :=
  if HasValidSignature blockMap then
    [J.obj (removeKey blockMap "cache_control")]
  else if MinSignatureLength ≤ storedSig.length then
    [J.obj [("type", J.str "thinking"), ("thinking", J.str (jStrD blockMap "thinking")),
            ("signature", J.str storedSig)]]
  else if !(jStrD blockMap "thinking" = "") then
    [J.obj [("type", J.str "text"), ("text", J.str (jStrD blockMap "thinking"))]]
  else []

/-- The claimed filter: the four-step rule on thinking blocks, every other
block untouched. -/
def claimedFilterOneBlock (storedSig : String) (block : J) : List J :=
  match block with
  | J.obj blockMap =>
      if jStrD blockMap "type" = "thinking" then claimedThinkingStep storedSig blockMap
      else [block]
  | other => [other]

/-- The invalid-thinking filter as the claim, read literally, describes it. -/
def claimedFilter (storedSig : String) (messages : List J) : List J :=
  messages.map (ruleFilterMessage (claimedFilterOneBlock storedSig))

/-- The amended four-step rule: (1) a valid block is rebuilt from exactly its
`type`, `thinking` value and non-empty `signature`; (2) repair when the stored
signature has length ≥ 50; (3) demote when the thinking text contains a
non-whitespace character; (4) else drop. Non-thinking blocks lose `cache_control`. -/
def specFourStepBlock (storedSig : String) (block : J) : List J :=
  match block with
  | J.obj blockMap =>
      if jStrD blockMap "type" = "thinking" then
        if HasValidSignature blockMap then [J.obj (cleanedThinking blockMap)]
        else if MinSignatureLength ≤ storedSig.length then
          [J.obj [("type", J.str "thinking"), ("thinking", J.str (jStrD blockMap "thinking")),
                  ("signature", J.str storedSig)]]
        else if !(trimSpace (jStrD blockMap "thinking") = "") then
          [J.obj [("type", J.str "text"), ("text", J.str (jStrD blockMap "thinking"))]]
        else []
      else [J.obj (removeKey blockMap "cache_control")]
  | other => [other]

/-- The invalid-thinking filter under the amended four-step rule. -/
def specFilter (storedSig : String) (messages : List J) : List J :=
  messages.map (ruleFilterMessage (specFourStepBlock storedSig))

/-! ## Finish-reason normalization (unnamed/part_007:258-279, part_004:322-346) -/

/-- `AnthropicAdapter.convertStopReason` (unnamed/part_007:258-279). A `nil`
reason yields "stop"; a non-string reason is formatted with `%v`, and such a
rendering never equals the three matched keywords, so it also yields "stop". -/
def convertStopReason (reason : Option J) : String :=
  match reason with
  | none => "stop"
  | some (J.str reasonStr) =>
      if reasonStr = "end_turn" then "stop"
      else if reasonStr = "max_tokens" then "length"
      else if reasonStr = "stop_sequence" then "stop"
      else "stop"
  | some _ => "stop"

/-- The `finishReason` switch of `OpenAIToGeminiAdapter.AdaptResponse`
(unnamed/part_004:322-334). -/
def geminiFinishReasonToOpenAI (fr : String) : String :=
  if fr = "STOP" then "stop"
  else if fr = "MAX_TOKENS" then "length"
  else if fr = "SAFETY" ∨ fr = "RECITATION" then "content_filter"
  else "stop"

/-! ## Session fingerprint (internal/adapters/signature_store.go:46-105) -/

/-- The 200-character truncation used by `extractContentForHash`. -/
def truncate200 (s : String) : String :=
  if 200 < s.length then s.take 200 else s

/-- The array loop of `extractContentForHash`: text of the first block with
`type == "text"` and a string `text` field. -/
def findTextBlockText : List J → Option String
  | [] => none
  | J.obj itemMap :: rest =>
      if jGet itemMap "type" = some (J.str "text") then
        match jGetStr itemMap "text" with
        | some t => some t
        | none => findTextBlockText rest
      else findTextBlockText rest
  | _ :: rest => findTextBlockText rest

/-- `extractContentForHash` (signature_store.go:72-105). `marshal` stands for
`json.Marshal` (an external library function, passed in abstractly). -/
def extractContentForHash (marshal : J → String) : J → String
  | J.str c => truncate200 c
  | J.arr items =>
      match findTextBlockText items with
      | some t => truncate200 t
      | none => truncate200 (marshal (J.arr items))
  | v => truncate200 (marshal v)

/-- `GenerateSessionID` (signature_store.go:46-70). `digest` stands for
`hex(sha256(·))[:16]` (external library functions, passed in abstractly);
the empty message list yields the empty fingerprint before hashing. -/
def GenerateSessionID (digest : String → String) (marshal : J → String)
    (messages : List J) : String :=
  if messages.isEmpty then ""
  else
    digest (String.intercalate "|"
      ((messages.take 3).filterMap (fun m =>
        match m with
        | J.obj msgMap =>
            some (jStrD msgMap "role" ++ ":" ++ extractContentForHash marshal (jGetD msgMap "content"))
        | _ => none)))

/-- The role/extracted-text projection of the first three messages that the
fingerprint may depend on (`none` marks a message that is not a JSON object). -/
def sessionProj (marshal : J → String) (messages : List J) : List (Option (String × String)) :=
  (messages.take 3).map (fun m =>
    match m with
    | J.obj msgMap =>
        some (jStrD msgMap "role", extractContentForHash marshal (jGetD msgMap "content"))
    | _ => none)

/-! ## Proxy routing (internal/service/proxy_service.go) -/

/-- Character-list prefix test, for Go `strings.Contains`. -/
def charsStartWith : List Char → List Char → Bool
  | _, [] => true
  | [], _ :: _ => false
  | c :: cs, d :: ds => c = d && charsStartWith cs ds

/-- Go `strings.Contains` on character lists. -/
def charsContains : List Char → List Char → Bool
  | [], sub => sub.isEmpty
  | c :: t, sub => charsStartWith (c :: t) sub || charsContains t sub

/-- Go `strings.Contains`. -/
def strContains (s sub : String) : Bool := charsContains s.data sub.data

/-- Go `strings.ToLower`, modelled per character (the names compared are ASCII). -/
def toLowerStr (s : String) : String := String.mk (s.data.map Char.toLower)

/-- `detectAdapter` (proxy_service.go:406-421). -/
def detectAdapter (apiUrl model : String) : String :=
  let lowerURL := toLowerStr apiUrl
  let lowerModel := toLowerStr model
  if strContains lowerURL "anthropic" || strContains lowerModel "claude" then "anthropic"
  else if strContains lowerURL "gemini" || strContains lowerModel "gemini" then "gemini"
  else if strContains lowerURL "deepseek" || strContains lowerModel "deepseek" then "deepseek"
  else ""

/-- `buildAdapterURL` (proxy_service.go:424-433). -/
def buildAdapterURL (baseURL adapterName : String) : String :=
  if adapterName = "anthropic" then baseURL ++ "/v1/messages"
  else if adapterName = "gemini" then baseURL ++ "/v1beta/models"
  else baseURL ++ "/v1/chat/completions"

/-- Go `strings.TrimSuffix(url, "/")`: drop one trailing slash. -/
def trimSuffixSlash (s : String) : String :=
  if s.data.getLast? = some '/' then String.mk s.data.dropLast else s

/-- The proxy-relevant fields of `config.Config`. -/
structure Config where
  redirectEnabled : Bool
  redirectKeyword : String
  redirectTargetModel : String
  deriving Repr, DecidableEq

/-- The proxy-relevant fields of a route record. -/
structure Route where
  name : String
  apiUrl : String
  apiKey : String
  id : Int
  deriving Repr, DecidableEq

/-- Everything `ProxyRequest` (proxy_service.go:36-160) decides before
dispatching: the model used for route lookup, the possibly redirect-rewritten
request data and body, whether the adapter branch is taken, the target URL, the
dispatched body, and the model name every `LogRequest` call in this function
receives. -/
structure ProxyPlan where
  lookupModel : String
  reqData : List (String × J)
  requestBody : String
  usedAdapter : Bool
  adapterName : String
  targetURL : String
  transformedBody : String
  loggedModel : String
  deriving Repr, DecidableEq

/-- The routing/transformation phase of `ProxyRequest` (proxy_service.go:36-95).
`marshal` stands for `json.Marshal`; `adaptReq` for the registry-dispatched
`adapter.AdaptRequest`. -/
def proxyRequestPlan (marshal : J → String)
    (adaptReq : String → List (String × J) → String → J)
    (cfg : Config) (route : Route)
    (requestBody : String) (reqData : List (String × J)) : Except String ProxyPlan :=
  match jGetStr reqData "model" with
  | none => Except.error "model field is required"
  | some model0 =>
    if model0 = "" then Except.error "model field is required"
    else
      let redirect : Bool := cfg.redirectEnabled && (model0 = cfg.redirectKeyword)
      if redirect ∧ cfg.redirectTargetModel = "" then
        Except.error "redirect target model not configured"
      else
        let model := if redirect then cfg.redirectTargetModel else model0
        let reqData' := if redirect then insertKV reqData "model" (J.str model) else reqData
        let requestBody' := if redirect then marshal (J.obj reqData') else requestBody
        let cleanAPIUrl := trimSuffixSlash route.apiUrl
        let adapterName := detectAdapter cleanAPIUrl model
        if !(adapterName = "") ∧ cfg.redirectEnabled = true
            ∧ jGet reqData' "model" = some (J.str cfg.redirectKeyword) then
          Except.ok
            { lookupModel := model, reqData := reqData', requestBody := requestBody',
              usedAdapter := true, adapterName := adapterName,
              targetURL := buildAdapterURL cleanAPIUrl adapterName,
              transformedBody := marshal (adaptReq adapterName reqData' model),
              loggedModel := model }
        else
          Except.ok
            { lookupModel := model, reqData := reqData', requestBody := requestBody',
              usedAdapter := false, adapterName := adapterName,
              targetURL := cleanAPIUrl ++ "/v1/chat/completions",
              transformedBody := requestBody', loggedModel := model }

/-- The corresponding decisions of `ProxyStreamRequest` (proxy_service.go:163-262):
the adapter branch is guarded only by `adapterName != ""`, `stream` is forced to
`true` before adaptation, and every `LogRequest` in the streaming helpers
receives `originalModel`. -/
structure StreamPlan where
  lookupModel : String
  originalModel : String
  usedAdapter : Bool
  adapterName : String
  targetURL : String
  transformedBody : String
  loggedModel : String
  deriving Repr, DecidableEq

/-- The routing/transformation phase of `ProxyStreamRequest`. -/
def proxyStreamPlan (marshal : J → String)
    (adaptReq : String → List (String × J) → String → J)
    (cfg : Config) (route : Route)
    (requestBody : String) (reqData : List (String × J)) : Except String StreamPlan :=
  match jGetStr reqData "model" with
  | none => Except.error "model field is required"
  | some model0 =>
    if model0 = "" then Except.error "model field is required"
    else
      let redirect : Bool := cfg.redirectEnabled && (model0 = cfg.redirectKeyword)
      if redirect ∧ cfg.redirectTargetModel = "" then
        Except.error "redirect target model not configured"
      else
        let model := if redirect then cfg.redirectTargetModel else model0
        let reqData' := if redirect then insertKV reqData "model" (J.str model) else reqData
        let requestBody' := if redirect then marshal (J.obj reqData') else requestBody
        let cleanAPIUrl := trimSuffixSlash route.apiUrl
        let adapterName := detectAdapter cleanAPIUrl model
        if !(adapterName = "") = true then
          let reqDataS := insertKV reqData' "stream" (J.bool true)
          Except.ok
            { lookupModel := model, originalModel := model0, usedAdapter := true,
              adapterName := adapterName,
              targetURL := buildAdapterURL cleanAPIUrl adapterName,
              transformedBody := marshal (adaptReq adapterName reqDataS model),
              loggedModel := model0 }
        else
          Except.ok
            { lookupModel := model, originalModel := model0, usedAdapter := false,
              adapterName := adapterName,
              targetURL := cleanAPIUrl ++ "/v1/chat/completions",
              transformedBody := requestBody', loggedModel := model0 }

/-- An upstream HTTP response. -/
structure UpstreamResponse where
  status : Nat
  body : String
  deriving Repr, DecidableEq

/-- What `ProxyRequest` does after its single `httpClient.Do` call
(proxy_service.go:113-159): the bodies dispatched upstream (exactly one — the
function has no retry loop), and the status/body returned to the client. -/
structure ProxyOutcome where
  dispatchedBodies : List String
  status : Nat
  responseBody : String
  deriving Repr, DecidableEq

/-- `ProxyRequest` end to end against one upstream response. `parse` stands for
`json.Unmarshal`, `adaptResp` for the registry-dispatched
`adapter.AdaptResponse`; a non-2xx response is logged and returned unchanged,
with no degradation pass and no second dispatch. -/
def proxyRequestOutcome (marshal : J → String)
    (adaptReq : String → List (String × J) → String → J)
    (parse : String → Option J) (adaptResp : String → J → J)
    (cfg : Config) (route : Route)
    (requestBody : String) (reqData : List (String × J))
    (resp : UpstreamResponse) : Except String ProxyOutcome :=
  match proxyRequestPlan marshal adaptReq cfg route requestBody reqData with
  | Except.error e => Except.error e
  | Except.ok plan =>
      let finalBody :=
        if !(plan.adapterName = "") ∧ cfg.redirectEnabled = true then
          match parse resp.body with
          | some (J.obj respData) => marshal (adaptResp plan.adapterName (J.obj respData))
          | _ => resp.body
        else resp.body
      Except.ok
        { dispatchedBodies := [plan.transformedBody],
          status := resp.status, responseBody := finalBody }

/-! ### Map-insertion lemmas -/

theorem kvKeys_cons (k : String) (v : J) (rest : List (String × J)) :
    kvKeys ((k, v) :: rest) = k :: kvKeys rest := rfl

theorem mem_kvKeys_cons {x k : String} {v : J} {rest : List (String × J)} :
    x ∈ kvKeys ((k, v) :: rest) ↔ x = k ∨ x ∈ kvKeys rest := by
  rw [kvKeys_cons, List.mem_cons]

theorem mem_kvKeys_insertKV {k x : String} {v : J} :
    ∀ {acc : List (String × J)}, x ∈ kvKeys (insertKV acc k v) → x ∈ kvKeys acc ∨ x = k := by
  intro acc
  induction acc with
  | nil =>
      intro h
      rw [insertKV, mem_kvKeys_cons] at h
      rcases h with h | h
      · exact Or.inr h
      · cases h
  | cons p rest ih =>
      obtain ⟨k', v'⟩ := p
      intro h
      by_cases hk : k' = k
      · rw [insertKV, if_pos hk, mem_kvKeys_cons] at h
        rcases h with h | h
        · exact Or.inr h
        · exact Or.inl (mem_kvKeys_cons.mpr (Or.inr h))
      · rw [insertKV, if_neg hk, mem_kvKeys_cons] at h
        rcases h with h | h
        · exact Or.inl (mem_kvKeys_cons.mpr (Or.inl h))
        · rcases ih h with h' | h'
          · exact Or.inl (mem_kvKeys_cons.mpr (Or.inr h'))
          · exact Or.inr h'

theorem insertKV_of_not_mem {k : String} {v : J} :
    ∀ {acc : List (String × J)}, k ∉ kvKeys acc → insertKV acc k v = acc ++ [(k, v)] := by
  intro acc
  induction acc with
  | nil => intro _; rfl
  | cons p rest ih =>
      obtain ⟨k', v'⟩ := p
      intro h
      have hk : ¬ k' = k := by
        intro hE; exact h (mem_kvKeys_cons.mpr (Or.inl hE.symm))
      have hrest : k ∉ kvKeys rest := fun hm => h (mem_kvKeys_cons.mpr (Or.inr hm))
      simp [insertKV, hk, ih hrest]

theorem keysNodupJ_cons {k : String} {v : J} {rest : List (String × J)} :
    keysNodupJ ((k, v) :: rest) = true ↔ k ∉ kvKeys rest ∧ keysNodupJ rest = true := by
  simp [keysNodupJ, List.contains]

theorem keysNodupJ_insertKV {k : String} {v : J} :
    ∀ {acc : List (String × J)}, keysNodupJ acc = true → keysNodupJ (insertKV acc k v) = true := by
  intro acc
  induction acc with
  | nil => intro _; simp [insertKV, keysNodupJ, kvKeys, List.contains]
  | cons p rest ih =>
      obtain ⟨k', v'⟩ := p
      intro h
      rw [keysNodupJ_cons] at h
      by_cases hk : k' = k
      · subst hk
        rw [insertKV, if_pos rfl, keysNodupJ_cons]
        exact h
      · rw [insertKV, if_neg hk, keysNodupJ_cons]
        refine ⟨?_, ih h.2⟩
        intro hm
        rcases mem_kvKeys_insertKV hm with h' | h'
        · exact h.1 h'
        · exact absurd h' hk

theorem SanKVs_insertKV {k : String} {v : J} (he : SanEntry k v = true) :
    ∀ {acc : List (String × J)}, SanKVs acc = true → SanKVs (insertKV acc k v) = true := by
  intro acc
  induction acc with
  | nil => intro _; simp [insertKV, SanKVs, he]
  | cons p rest ih =>
      obtain ⟨k', v'⟩ := p
      intro h
      simp [SanKVs] at h
      by_cases hk : k' = k
      · simp [insertKV, hk, SanKVs, he, h.2]
      · simp [insertKV, hk, SanKVs, h.1, ih h.2]

theorem insertAll_inv {ws : List (String × J)} (hw : SanKVs ws = true) :
    ∀ {acc : List (String × J)}, keysNodupJ acc = true → SanKVs acc = true →
      keysNodupJ (insertAll acc ws) = true ∧ SanKVs (insertAll acc ws) = true := by
  induction ws with
  | nil => intro acc h1 h2; exact ⟨h1, h2⟩
  | cons p rest ih =>
      obtain ⟨k, v⟩ := p
      simp [SanKVs] at hw
      intro acc h1 h2
      exact ih hw.2 (keysNodupJ_insertKV h1) (SanKVs_insertKV hw.1 h2)

/-! ### Size bookkeeping for the recursion on `J` -/

theorem szJ_kvs_lt_obj (kvs : List (String × J)) : sizeOf kvs < sizeOf (J.obj kvs) := by
  simp

theorem szJ_xs_lt_arr (xs : List J) : sizeOf xs < sizeOf (J.arr xs) := by
  simp

theorem szKV_v_lt (k : String) (v : J) (rest : List (String × J)) :
    sizeOf v < sizeOf ((k, v) :: rest) := by
  simp
  omega

theorem szKV_rest_lt (k : String) (v : J) (rest : List (String × J)) :
    sizeOf rest < sizeOf ((k, v) :: rest) := by
  simp

theorem szL_head_lt (x : J) (rest : List J) : sizeOf x < sizeOf (x :: rest) := by
  simp
  omega

theorem szL_rest_lt (x : J) (rest : List J) : sizeOf rest < sizeOf (x :: rest) := by
  simp

/-! ### The sanitizer produces sanitized output (production lemmas) -/

theorem sanAnyOf_inv :
    ∀ opts : List J,
      (∀ w : List (String × J), sizeOf w < sizeOf opts →
          keysNodupJ (sanEntries [] w) = true ∧ SanKVs (sanEntries [] w) = true) →
      keysNodupJ (sanAnyOf opts) = true ∧ SanKVs (sanAnyOf opts) = true := by
  intro opts
  induction opts with
  | nil => intro _; simp [sanAnyOf, keysNodupJ, SanKVs]
  | cons x rest ih =>
      intro cb
      have hrest := fun w h => cb w (lt_trans h (szL_rest_lt x rest))
      cases x with
      | obj w =>
          by_cases h1 : jGet w "type" = some (J.str "null")
          · simpa [sanAnyOf, h1] using ih hrest
          · by_cases h2 : (jGet w "not").isSome
            · simpa [sanAnyOf, h1, h2] using ih hrest
            · have := cb w (lt_of_lt_of_le (szJ_kvs_lt_obj w) (le_of_lt (szL_head_lt _ rest)))
              simpa [sanAnyOf, h1, h2] using this
      | null => simpa [sanAnyOf] using ih hrest
      | bool b => simpa [sanAnyOf] using ih hrest
      | num m => simpa [sanAnyOf] using ih hrest
      | str s => simpa [sanAnyOf] using ih hrest
      | arr ys => simpa [sanAnyOf] using ih hrest

theorem sanArr_inv :
    ∀ xs : List J,
      (∀ w : List (String × J), sizeOf w < sizeOf xs →
          keysNodupJ (sanEntries [] w) = true ∧ SanKVs (sanEntries [] w) = true) →
      SanArrOK (sanArr xs) = true := by
  intro xs
  induction xs with
  | nil => intro _; simp [sanArr, SanArrOK]
  | cons x rest ih =>
      intro cb
      have hrest := fun w h => cb w (lt_trans h (szL_rest_lt x rest))
      cases x with
      | obj w =>
          have hw := cb w (lt_of_lt_of_le (szJ_kvs_lt_obj w) (le_of_lt (szL_head_lt _ rest)))
          simp [sanArr, SanArrOK, hw.1, hw.2, ih hrest]
      | null => simp [sanArr, SanArrOK]; exact ih hrest
      | bool b => simp [sanArr, SanArrOK]; exact ih hrest
      | num m => simp [sanArr, SanArrOK]; exact ih hrest
      | str s => simp [sanArr, SanArrOK]; exact ih hrest
      | arr ys => simp [sanArr, SanArrOK]; exact ih hrest

theorem sanProps_inv :
    ∀ ps : List (String × J),
      (∀ j : J, sizeOf j < sizeOf ps → SanV (sanitizeJSONSchema j) = true) →
      SanProps (sanProps ps) = true := by
  intro ps
  induction ps with
  | nil => intro _; simp [sanProps, SanProps]
  | cons p rest ih =>
      obtain ⟨n, pv⟩ := p
      intro cb
      have hrest := fun j h => cb j (lt_trans h (szKV_rest_lt n pv rest))
      have hpv := cb pv (szKV_v_lt n pv rest)
      simp [sanProps, SanProps, hpv, ih hrest]

theorem sanStep_inv {acc : List (String × J)} (k : String) (v : J)
    (cbE : ∀ w : List (String × J), sizeOf w < sizeOf v →
        ∀ acc' : List (String × J), keysNodupJ acc' = true → SanKVs acc' = true →
        keysNodupJ (sanEntries acc' w) = true ∧ SanKVs (sanEntries acc' w) = true)
    (cbV : ∀ j : J, sizeOf j < sizeOf v → SanV (sanitizeJSONSchema j) = true)
    (h1 : keysNodupJ acc = true) (h2 : SanKVs acc = true) :
    keysNodupJ (sanStep acc k v) = true ∧ SanKVs (sanStep acc k v) = true := by
  have hnil : keysNodupJ ([] : List (String × J)) = true ∧ SanKVs ([] : List (String × J)) = true := by
    constructor <;> simp [keysNodupJ, SanKVs]
  cases v with
  | arr opts =>
      by_cases hreq : k = "required" ∧ opts.isEmpty = true
      · simp [sanStep, hreq.1, hreq.2, h1, h2]
      · by_cases hskip : skipField k = true
        · -- dropped key: accumulator unchanged
          cases opts with
          | nil =>
              rcases Decidable.em (k = "required") with hk | hk
              · exact absurd ⟨hk, by simp⟩ hreq
              · simp [sanStep, hk, hskip, h1, h2]
          | cons o os => simp [sanStep, hskip, h1, h2]
        · by_cases hany : k = "anyOf"
          · have hAnyOf := sanAnyOf_inv opts
              (fun w h => cbE w (lt_trans h (szJ_xs_lt_arr opts)) [] hnil.1 hnil.2)
            have hmerge := insertAll_inv hAnyOf.2 h1 h2
            cases opts with
            | nil =>
                simp [hany] at hreq
                simpa [sanStep, hany, hskip] using hmerge
            | cons o os => simpa [sanStep, hany, hskip] using hmerge
          · have hArr : SanArrOK (sanArr opts) = true :=
              sanArr_inv opts (fun w h => cbE w (lt_trans h (szJ_xs_lt_arr opts)) [] hnil.1 hnil.2)
            have hEntry : SanEntry k (J.arr (sanArr opts)) = true := by
              have hlen : isEmptyArrJ (J.arr (sanArr opts)) = opts.isEmpty := by
                cases opts with
                | nil => simp [sanArr, isEmptyArrJ]
                | cons o os => cases o <;> simp [sanArr, isEmptyArrJ]
              simp only [SanEntry, Bool.and_eq_true, Bool.not_eq_true']
              refine ⟨⟨⟨by simpa using hskip, ?_⟩, by simp [hany]⟩, hArr⟩
              rcases Decidable.em (k = "required") with hk | hk
              · have hne : opts.isEmpty = false := by
                  rcases Bool.eq_false_or_eq_true opts.isEmpty with h | h
                  · exact absurd ⟨hk, h⟩ hreq
                  · exact h
                simp [hk, hlen, hne]
              · simp [hk]
            have step_eq : sanStep acc k (J.arr opts) = insertKV acc k (J.arr (sanArr opts)) := by
              cases opts with
              | nil =>
                  rcases Decidable.em (k = "required") with hk | hk
                  · exact absurd ⟨hk, by simp⟩ hreq
                  · simp [sanStep, hk, hskip, hany]
              | cons o os => simp [sanStep, hskip, hany]
            rw [step_eq]
            exact ⟨keysNodupJ_insertKV h1, SanKVs_insertKV hEntry h2⟩
  | obj w =>
      by_cases hskip : skipField k = true
      · simp [sanStep, hskip, h1, h2]
      · by_cases hprop : k = "properties"
        · have hProps : SanProps (sanProps w) = true :=
            sanProps_inv w (fun j h => cbV j (lt_trans h (szJ_kvs_lt_obj w)))
          have hEntry : SanEntry k (J.obj (sanProps w)) = true := by
            simp only [SanEntry, Bool.and_eq_true, Bool.not_eq_true']
            refine ⟨⟨⟨by simpa using hskip, by simp [hprop, isEmptyArrJ]⟩,
              by simp [hprop, isArrJ]⟩, by simp [hprop, hProps]⟩
          have step_eq : sanStep acc k (J.obj w) = insertKV acc k (J.obj (sanProps w)) := by
            subst hprop
            simp [sanStep, skipField]
          rw [step_eq]
          exact ⟨keysNodupJ_insertKV h1, SanKVs_insertKV hEntry h2⟩
        · have hw := cbE w (szJ_kvs_lt_obj w) [] hnil.1 hnil.2
          have hEntry : SanEntry k (J.obj (sanEntries [] w)) = true := by
            simp only [SanEntry, Bool.and_eq_true, Bool.not_eq_true']
            refine ⟨⟨⟨by simpa using hskip, by simp [isEmptyArrJ]⟩, by simp [isArrJ]⟩, ?_⟩
            simp [hprop, hw.1, hw.2]
          have step_eq : sanStep acc k (J.obj w) = insertKV acc k (J.obj (sanEntries [] w)) := by
            simp [sanStep, hskip, hprop]
          rw [step_eq]
          exact ⟨keysNodupJ_insertKV h1, SanKVs_insertKV hEntry h2⟩
  | null =>
      by_cases hskip : skipField k = true
      · simp [sanStep, hskip, h1, h2]
      · have hEntry : SanEntry k J.null = true := by
          simp [SanEntry, isEmptyArrJ, isArrJ, hskip]
        have step_eq : sanStep acc k J.null = insertKV acc k J.null := by
          simp [sanStep, hskip]
        rw [step_eq]
        exact ⟨keysNodupJ_insertKV h1, SanKVs_insertKV hEntry h2⟩
  | bool b =>
      by_cases hskip : skipField k = true
      · simp [sanStep, hskip, h1, h2]
      · have hEntry : SanEntry k (J.bool b) = true := by
          simp [SanEntry, isEmptyArrJ, isArrJ, hskip]
        have step_eq : sanStep acc k (J.bool b) = insertKV acc k (J.bool b) := by
          simp [sanStep, hskip]
        rw [step_eq]
        exact ⟨keysNodupJ_insertKV h1, SanKVs_insertKV hEntry h2⟩
  | num m =>
      by_cases hskip : skipField k = true
      · simp [sanStep, hskip, h1, h2]
      · have hEntry : SanEntry k (J.num m) = true := by
          simp [SanEntry, isEmptyArrJ, isArrJ, hskip]
        have step_eq : sanStep acc k (J.num m) = insertKV acc k (J.num m) := by
          simp [sanStep, hskip]
        rw [step_eq]
        exact ⟨keysNodupJ_insertKV h1, SanKVs_insertKV hEntry h2⟩
  | str s =>
      by_cases hskip : skipField k = true
      · simp [sanStep, hskip, h1, h2]
      · have hEntry : SanEntry k (J.str s) = true := by
          simp [SanEntry, isEmptyArrJ, isArrJ, hskip]
        have step_eq : sanStep acc k (J.str s) = insertKV acc k (J.str s) := by
          simp [sanStep, hskip]
        rw [step_eq]
        exact ⟨keysNodupJ_insertKV h1, SanKVs_insertKV hEntry h2⟩

/-! ### Sanitized input is left unchanged (consumption lemmas) -/

theorem sanProps_fixed :
    ∀ ps : List (String × J),
      (∀ j : J, sizeOf j < sizeOf ps → SanV j = true → sanitizeJSONSchema j = j) →
      SanProps ps = true → sanProps ps = ps := by
  intro ps
  induction ps with
  | nil => intro _ _; simp [sanProps]
  | cons p rest ih =>
      obtain ⟨n, pv⟩ := p
      intro cb h
      simp only [SanProps, Bool.and_eq_true] at h
      have hpv := cb pv (szKV_v_lt n pv rest) h.1
      have hrest := ih (fun j hj => cb j (lt_trans hj (szKV_rest_lt n pv rest))) h.2
      simp [sanProps, hpv, hrest]

theorem sanArr_fixed :
    ∀ xs : List J,
      (∀ w : List (String × J), sizeOf w < sizeOf xs →
          keysNodupJ w = true → SanKVs w = true → sanEntries [] w = w) →
      SanArrOK xs = true → sanArr xs = xs := by
  intro xs
  induction xs with
  | nil => intro _ _; simp [sanArr]
  | cons x rest ih =>
      intro cb h
      have cbrest := fun w hw => cb w (lt_trans hw (szL_rest_lt x rest))
      cases x with
      | obj w =>
          simp only [SanArrOK, Bool.and_eq_true] at h
          have hw := cb w (lt_of_lt_of_le (szJ_kvs_lt_obj w) (le_of_lt (szL_head_lt _ rest)))
            h.1.1 h.1.2
          simp [sanArr, hw, ih cbrest h.2]
      | null => simp only [SanArrOK] at h; simp [sanArr, ih cbrest h]
      | bool b => simp only [SanArrOK] at h; simp [sanArr, ih cbrest h]
      | num m => simp only [SanArrOK] at h; simp [sanArr, ih cbrest h]
      | str s => simp only [SanArrOK] at h; simp [sanArr, ih cbrest h]
      | arr ys => simp only [SanArrOK] at h; simp [sanArr, ih cbrest h]

theorem sanStep_fixed {acc : List (String × J)} (k : String) (v : J)
    (cbE : ∀ w : List (String × J), sizeOf w < sizeOf v →
        keysNodupJ w = true → SanKVs w = true → sanEntries [] w = w)
    (cbV : ∀ j : J, sizeOf j < sizeOf v → SanV j = true → sanitizeJSONSchema j = j)
    (hE : SanEntry k v = true) (hfresh : k ∉ kvKeys acc) :
    sanStep acc k v = acc ++ [(k, v)] := by
  cases v with
  | arr opts =>
      simp only [SanEntry, Bool.and_eq_true, Bool.not_eq_true'] at hE
      obtain ⟨⟨⟨hskip, hreq⟩, hany⟩, hval⟩ := hE
      have hanyk : ¬ k = "anyOf" := by
        intro hk; rw [hk] at hany; simp [isArrJ] at hany
      have hreqk : ¬ (k = "required" ∧ opts.isEmpty = true) := by
        rintro ⟨hk, he⟩
        rw [hk] at hreq
        cases opts with
        | nil => simp [isEmptyArrJ] at hreq
        | cons o os => simp at he
      have hArr : sanArr opts = opts :=
        sanArr_fixed opts (fun w hw => cbE w (lt_trans hw (szJ_xs_lt_arr opts))) hval
      cases opts with
      | nil =>
          have hk : ¬ k = "required" := fun hk => hreqk ⟨hk, by simp⟩
          simp [sanStep, hk, hskip, hanyk, hArr, insertKV_of_not_mem hfresh]
      | cons o os =>
          simp [sanStep, hskip, hanyk, hArr, insertKV_of_not_mem hfresh]
  | obj w =>
      simp only [SanEntry, Bool.and_eq_true, Bool.not_eq_true'] at hE
      obtain ⟨⟨⟨hskip, hreq⟩, hany⟩, hval⟩ := hE
      by_cases hprop : k = "properties"
      · rw [hprop] at hval ⊢
        simp only [if_pos rfl] at hval
        have hw : sanProps w = w :=
          sanProps_fixed w (fun j hj => cbV j (lt_trans hj (szJ_kvs_lt_obj w))) hval
        subst hprop
        simp [sanStep, skipField, hw, insertKV_of_not_mem hfresh]
      · simp only [if_neg hprop, Bool.and_eq_true] at hval
        have hw : sanEntries [] w = w := cbE w (szJ_kvs_lt_obj w) hval.1 hval.2
        simp [sanStep, hskip, hprop, hw, insertKV_of_not_mem hfresh]
  | null =>
      simp only [SanEntry, Bool.and_eq_true, Bool.not_eq_true'] at hE
      simp [sanStep, hE.1.1.1, insertKV_of_not_mem hfresh]
  | bool b =>
      simp only [SanEntry, Bool.and_eq_true, Bool.not_eq_true'] at hE
      simp [sanStep, hE.1.1.1, insertKV_of_not_mem hfresh]
  | num m =>
      simp only [SanEntry, Bool.and_eq_true, Bool.not_eq_true'] at hE
      simp [sanStep, hE.1.1.1, insertKV_of_not_mem hfresh]
  | str s =>
      simp only [SanEntry, Bool.and_eq_true, Bool.not_eq_true'] at hE
      simp [sanStep, hE.1.1.1, insertKV_of_not_mem hfresh]

/-! ### Master induction: the sanitizer's output is sanitized, and sanitized
input is a fixed point. -/

theorem sanitizeMain : ∀ n : Nat,
    (∀ j : J, sizeOf j ≤ n →
        SanV (sanitizeJSONSchema j) = true ∧ (SanV j = true → sanitizeJSONSchema j = j))
  ∧ (∀ kvs : List (String × J), sizeOf kvs ≤ n →
        (∀ acc, keysNodupJ acc = true → SanKVs acc = true →
            keysNodupJ (sanEntries acc kvs) = true ∧ SanKVs (sanEntries acc kvs) = true)
      ∧ (∀ acc, keysNodupJ kvs = true → SanKVs kvs = true →
            (∀ x, x ∈ kvKeys kvs → x ∉ kvKeys acc) → sanEntries acc kvs = acc ++ kvs)) := by
  intro n
  induction n using Nat.strong_induction_on with
  | _ n IH =>
  have P1 : ∀ j : J, sizeOf j < n →
      SanV (sanitizeJSONSchema j) = true ∧ (SanV j = true → sanitizeJSONSchema j = j) :=
    fun j hj => (IH (sizeOf j) hj).1 j le_rfl
  have P2 : ∀ kvs : List (String × J), sizeOf kvs < n →
      (∀ acc, keysNodupJ acc = true → SanKVs acc = true →
          keysNodupJ (sanEntries acc kvs) = true ∧ SanKVs (sanEntries acc kvs) = true)
    ∧ (∀ acc, keysNodupJ kvs = true → SanKVs kvs = true →
          (∀ x, x ∈ kvKeys kvs → x ∉ kvKeys acc) → sanEntries acc kvs = acc ++ kvs) :=
    fun kvs hk => (IH (sizeOf kvs) hk).2 kvs le_rfl
  constructor
  · intro j hj
    cases j with
    | null =>
        constructor
        · simp [sanitizeJSONSchema, sanEntries, SanV, keysNodupJ, SanKVs]
        · intro h; simp [SanV] at h
    | obj kvs =>
        have hlt : sizeOf kvs < n := lt_of_lt_of_le (szJ_kvs_lt_obj kvs) hj
        have h2 := P2 kvs hlt
        constructor
        · have hres := h2.1 [] (by simp [keysNodupJ]) (by simp [SanKVs])
          simp [sanitizeJSONSchema, SanV, hres.1, hres.2]
        · intro h
          simp only [SanV, Bool.and_eq_true] at h
          have hfix := h2.2 [] h.1 h.2 (by intro x hx; simp [kvKeys])
          simp [sanitizeJSONSchema, hfix]
    | bool b => exact ⟨by simp [sanitizeJSONSchema, SanV], fun _ => by simp [sanitizeJSONSchema]⟩
    | num m => exact ⟨by simp [sanitizeJSONSchema, SanV], fun _ => by simp [sanitizeJSONSchema]⟩
    | str s => exact ⟨by simp [sanitizeJSONSchema, SanV], fun _ => by simp [sanitizeJSONSchema]⟩
    | arr xs => exact ⟨by simp [sanitizeJSONSchema, SanV], fun _ => by simp [sanitizeJSONSchema]⟩
  · intro kvs hk
    cases kvs with
    | nil =>
        constructor
        · intro acc h1 h2; simpa [sanEntries] using ⟨h1, h2⟩
        · intro acc _ _ _; simp [sanEntries]
    | cons p rest =>
        obtain ⟨k, v⟩ := p
        have hvlt : sizeOf v < n := lt_of_lt_of_le (szKV_v_lt k v rest) hk
        have hrlt : sizeOf rest < n := lt_of_lt_of_le (szKV_rest_lt k v rest) hk
        have hrest := P2 rest hrlt
        constructor
        · intro acc h1 h2
          have hstep := @sanStep_inv acc k v
            (fun w hw acc' a1 a2 => (P2 w (lt_trans hw hvlt)).1 acc' a1 a2)
            (fun i hi => (P1 i (lt_trans hi hvlt)).1)
            h1 h2
          have hres := hrest.1 (sanStep acc k v) hstep.1 hstep.2
          simpa [sanEntries] using hres
        · intro acc hnodup hsan hdisj
          rw [keysNodupJ_cons] at hnodup
          simp only [SanKVs, Bool.and_eq_true] at hsan
          have hkacc : k ∉ kvKeys acc :=
            hdisj k (mem_kvKeys_cons.mpr (Or.inl rfl))
          have hstep : sanStep acc k v = acc ++ [(k, v)] :=
            sanStep_fixed k v
              (fun w hw a1 a2 => by
                have hfix := (P2 w (lt_trans hw hvlt)).2 [] a1 a2 (by intro x hx; simp [kvKeys])
                simpa using hfix)
              (fun i hi => (P1 i (lt_trans hi hvlt)).2)
              hsan.1 hkacc
          have hdisj' : ∀ x, x ∈ kvKeys rest → x ∉ kvKeys (acc ++ [(k, v)]) := by
            intro x hx hmem
            have hxk : x ≠ k := fun he => hnodup.1 (he ▸ hx)
            have : kvKeys (acc ++ [(k, v)]) = kvKeys acc ++ [k] := by
              simp [kvKeys]
            rw [this, List.mem_append] at hmem
            rcases hmem with hmem | hmem
            · exact hdisj x (mem_kvKeys_cons.mpr (Or.inr hx)) hmem
            · simp at hmem; exact hxk hmem
          have hres := hrest.2 (acc ++ [(k, v)]) hnodup.2 hsan.2 hdisj'
          calc sanEntries acc ((k, v) :: rest)
              = sanEntries (sanStep acc k v) rest := by rw [sanEntries]
            _ = sanEntries (acc ++ [(k, v)]) rest := by rw [hstep]
            _ = (acc ++ [(k, v)]) ++ rest := hres
            _ = acc ++ ((k, v) :: rest) := by simp

/-! ### `cleanGeminiSchema` output carries none of its dropped keys -/

theorem gCleanKVs_insertKV {k : String} {v : J} (hk : geminiSkipField k = false)
    (hv : gCleanVal v = true) :
    ∀ {acc : List (String × J)}, gCleanKVs acc = true → gCleanKVs (insertKV acc k v) = true := by
  intro acc
  induction acc with
  | nil => intro _; simp [insertKV, gCleanKVs, hk, hv]
  | cons p rest ih =>
      obtain ⟨k', v'⟩ := p
      intro h
      simp only [gCleanKVs, Bool.and_eq_true] at h
      by_cases he : k' = k
      · simp [insertKV, he, gCleanKVs, hk, hv, h.2]
      · simp [insertKV, he, gCleanKVs, h.1.1, h.1.2, ih h.2]

theorem cleanGeminiMain : ∀ n : Nat,
    (∀ j : J, sizeOf j ≤ n → gCleanV (cleanGeminiSchema j) = true)
  ∧ (∀ kvs : List (String × J), sizeOf kvs ≤ n →
        ∀ acc, gCleanKVs acc = true → gCleanKVs (cleanGEntries acc kvs) = true)
  ∧ (∀ xs : List J, sizeOf xs ≤ n → gCleanArr (cleanGArr xs) = true) := by
  intro n
  induction n using Nat.strong_induction_on with
  | _ n IH =>
  have P1 : ∀ j : J, sizeOf j < n → gCleanV (cleanGeminiSchema j) = true :=
    fun j hj => (IH (sizeOf j) hj).1 j le_rfl
  have P2 : ∀ kvs : List (String × J), sizeOf kvs < n →
      ∀ acc, gCleanKVs acc = true → gCleanKVs (cleanGEntries acc kvs) = true :=
    fun kvs hk => (IH (sizeOf kvs) hk).2.1 kvs le_rfl
  have P3 : ∀ xs : List J, sizeOf xs < n → gCleanArr (cleanGArr xs) = true :=
    fun xs hx => (IH (sizeOf xs) hx).2.2 xs le_rfl
  refine ⟨?_, ?_, ?_⟩
  · intro j hj
    cases j with
    | obj kvs =>
        have h := P2 kvs (lt_of_lt_of_le (szJ_kvs_lt_obj kvs) hj) [] (by simp [gCleanKVs])
        simp [cleanGeminiSchema, gCleanV, h]
    | null => simp [cleanGeminiSchema, gCleanV]
    | bool b => simp [cleanGeminiSchema, gCleanV]
    | num m => simp [cleanGeminiSchema, gCleanV]
    | str t => simp [cleanGeminiSchema, gCleanV]
    | arr xs => simp [cleanGeminiSchema, gCleanV]
  · intro kvs hk
    cases kvs with
    | nil => intro acc h; simpa [cleanGEntries] using h
    | cons p rest =>
        obtain ⟨k, v⟩ := p
        intro acc h
        have hvlt : sizeOf v < n := lt_of_lt_of_le (szKV_v_lt k v rest) hk
        have hrlt : sizeOf rest < n := lt_of_lt_of_le (szKV_rest_lt k v rest) hk
        by_cases hg : geminiSkipField k = true
        · have hstep : cleanGEntries acc ((k, v) :: rest) = cleanGEntries acc rest := by
            cases v <;> simp [cleanGEntries, hg]
          rw [hstep]
          exact P2 rest hrlt acc h
        · have hg' : geminiSkipField k = false := by
            rcases Bool.eq_false_or_eq_true (geminiSkipField k) with h0 | h0
            · exact absurd h0 hg
            · exact h0
          cases v with
          | obj w =>
              have hw := P2 w (lt_trans (szJ_kvs_lt_obj w) hvlt) [] (by simp [gCleanKVs])
              have hstep : cleanGEntries acc ((k, J.obj w) :: rest)
                  = cleanGEntries (insertKV acc k (J.obj (cleanGEntries [] w))) rest := by
                simp [cleanGEntries, hg]
              rw [hstep]
              exact P2 rest hrlt _ (gCleanKVs_insertKV hg' (by simp [gCleanVal, hw]) h)
          | arr xs =>
              have hx := P3 xs (lt_trans (szJ_xs_lt_arr xs) hvlt)
              have hstep : cleanGEntries acc ((k, J.arr xs) :: rest)
                  = cleanGEntries (insertKV acc k (J.arr (cleanGArr xs))) rest := by
                simp [cleanGEntries, hg]
              rw [hstep]
              exact P2 rest hrlt _ (gCleanKVs_insertKV hg' (by simp [gCleanVal, hx]) h)
          | null =>
              have hstep : cleanGEntries acc ((k, J.null) :: rest)
                  = cleanGEntries (insertKV acc k J.null) rest := by
                simp [cleanGEntries, hg]
              rw [hstep]
              exact P2 rest hrlt _ (gCleanKVs_insertKV hg' (by simp [gCleanVal]) h)
          | bool b =>
              have hstep : cleanGEntries acc ((k, J.bool b) :: rest)
                  = cleanGEntries (insertKV acc k (J.bool b)) rest := by
                simp [cleanGEntries, hg]
              rw [hstep]
              exact P2 rest hrlt _ (gCleanKVs_insertKV hg' (by simp [gCleanVal]) h)
          | num m =>
              have hstep : cleanGEntries acc ((k, J.num m) :: rest)
                  = cleanGEntries (insertKV acc k (J.num m)) rest := by
                simp [cleanGEntries, hg]
              rw [hstep]
              exact P2 rest hrlt _ (gCleanKVs_insertKV hg' (by simp [gCleanVal]) h)
          | str t =>
              have hstep : cleanGEntries acc ((k, J.str t) :: rest)
                  = cleanGEntries (insertKV acc k (J.str t)) rest := by
                simp [cleanGEntries, hg]
              rw [hstep]
              exact P2 rest hrlt _ (gCleanKVs_insertKV hg' (by simp [gCleanVal]) h)
  · intro xs hx
    cases xs with
    | nil => simp [cleanGArr, gCleanArr]
    | cons x rest =>
        have hrlt : sizeOf rest < n := lt_of_lt_of_le (szL_rest_lt x rest) hx
        have hrest := P3 rest hrlt
        cases x with
        | obj w =>
            have hw := P2 w (lt_of_lt_of_le (lt_trans (szJ_kvs_lt_obj w) (szL_head_lt _ rest)) hx)
              [] (by simp [gCleanKVs])
            simp [cleanGArr, cleanGeminiSchema, gCleanArr, hw, hrest]
        | null => simp [cleanGArr, cleanGeminiSchema, gCleanArr, hrest]
        | bool b => simp [cleanGArr, cleanGeminiSchema, gCleanArr, hrest]
        | num m => simp [cleanGArr, cleanGeminiSchema, gCleanArr, hrest]
        | str t => simp [cleanGArr, cleanGeminiSchema, gCleanArr, hrest]
        | arr ys => simp [cleanGArr, cleanGeminiSchema, gCleanArr, hrest]

/-! ### Sanitized values carry none of the dropped keys -/

theorem sanToNoBanned : ∀ n : Nat,
    (∀ j : J, sizeOf j ≤ n → SanV j = true → noBannedV j = true)
  ∧ (∀ kvs : List (String × J), sizeOf kvs ≤ n → SanKVs kvs = true → noBannedKVs kvs = true)
  ∧ (∀ ps : List (String × J), sizeOf ps ≤ n → SanProps ps = true → noBannedProps ps = true)
  ∧ (∀ xs : List J, sizeOf xs ≤ n → SanArrOK xs = true → noBannedArr xs = true) := by
  intro n
  induction n using Nat.strong_induction_on with
  | _ n IH =>
  have P1 : ∀ j : J, sizeOf j < n → SanV j = true → noBannedV j = true :=
    fun j hj => (IH (sizeOf j) hj).1 j le_rfl
  have P2 : ∀ kvs : List (String × J), sizeOf kvs < n → SanKVs kvs = true → noBannedKVs kvs = true :=
    fun kvs hk => (IH (sizeOf kvs) hk).2.1 kvs le_rfl
  have P3 : ∀ ps : List (String × J), sizeOf ps < n → SanProps ps = true → noBannedProps ps = true :=
    fun ps hp => (IH (sizeOf ps) hp).2.2.1 ps le_rfl
  have P4 : ∀ xs : List J, sizeOf xs < n → SanArrOK xs = true → noBannedArr xs = true :=
    fun xs hx => (IH (sizeOf xs) hx).2.2.2 xs le_rfl
  refine ⟨?_, ?_, ?_, ?_⟩
  · intro j hj h
    cases j with
    | obj kvs =>
        simp only [SanV, Bool.and_eq_true] at h
        have := P2 kvs (lt_of_lt_of_le (szJ_kvs_lt_obj kvs) hj) h.2
        simp [noBannedV, this]
    | null => simp [SanV] at h
    | bool b => simp [noBannedV]
    | num m => simp [noBannedV]
    | str t => simp [noBannedV]
    | arr xs => simp [noBannedV]
  · intro kvs hk h
    cases kvs with
    | nil => simp [noBannedKVs]
    | cons p rest =>
        obtain ⟨k, v⟩ := p
        have hvlt : sizeOf v < n := lt_of_lt_of_le (szKV_v_lt k v rest) hk
        have hrlt : sizeOf rest < n := lt_of_lt_of_le (szKV_rest_lt k v rest) hk
        simp only [SanKVs, Bool.and_eq_true] at h
        have hrest := P2 rest hrlt h.2
        have hent : noBannedEntry k v = true := by
          have hE := h.1
          cases v with
          | obj w =>
              simp only [SanEntry, Bool.and_eq_true, Bool.not_eq_true'] at hE
              obtain ⟨⟨⟨hskip, hreq⟩, _⟩, hval⟩ := hE
              by_cases hprop : k = "properties"
              · rw [if_pos hprop] at hval
                have := P3 w (lt_trans (szJ_kvs_lt_obj w) hvlt) hval
                subst hprop
                simp [noBannedEntry, hskip, hreq, this]
              · rw [if_neg hprop] at hval
                simp only [Bool.and_eq_true] at hval
                have := P2 w (lt_trans (szJ_kvs_lt_obj w) hvlt) hval.2
                simp [noBannedEntry, hskip, hreq, hprop, this]
          | arr xs =>
              simp only [SanEntry, Bool.and_eq_true, Bool.not_eq_true'] at hE
              obtain ⟨⟨⟨hskip, hreq⟩, _⟩, hval⟩ := hE
              have := P4 xs (lt_trans (szJ_xs_lt_arr xs) hvlt) hval
              simp [noBannedEntry, hskip, hreq, this]
          | null =>
              simp only [SanEntry, Bool.and_eq_true, Bool.not_eq_true'] at hE
              simp [noBannedEntry, hE.1.1.1, hE.1.1.2]
          | bool b =>
              simp only [SanEntry, Bool.and_eq_true, Bool.not_eq_true'] at hE
              simp [noBannedEntry, hE.1.1.1, hE.1.1.2]
          | num m =>
              simp only [SanEntry, Bool.and_eq_true, Bool.not_eq_true'] at hE
              simp [noBannedEntry, hE.1.1.1, hE.1.1.2]
          | str t =>
              simp only [SanEntry, Bool.and_eq_true, Bool.not_eq_true'] at hE
              simp [noBannedEntry, hE.1.1.1, hE.1.1.2]
        simp [noBannedKVs, hent, hrest]
  · intro ps hp h
    cases ps with
    | nil => simp [noBannedProps]
    | cons p rest =>
        obtain ⟨m, pv⟩ := p
        have hvlt : sizeOf pv < n := lt_of_lt_of_le (szKV_v_lt m pv rest) hp
        have hrlt : sizeOf rest < n := lt_of_lt_of_le (szKV_rest_lt m pv rest) hp
        simp only [SanProps, Bool.and_eq_true] at h
        have hrest := P3 rest hrlt h.2
        cases pv with
        | obj w =>
            have hpv := P1 (J.obj w) hvlt h.1
            simp only [noBannedV] at hpv
            simp [noBannedProps, hpv, hrest]
        | null => simp [SanV] at h
        | bool b => simp [noBannedProps, hrest]
        | num i => simp [noBannedProps, hrest]
        | str t => simp [noBannedProps, hrest]
        | arr xs => simp [noBannedProps, hrest]
  · intro xs hx h
    cases xs with
    | nil => simp [noBannedArr]
    | cons x rest =>
        have hrlt : sizeOf rest < n := lt_of_lt_of_le (szL_rest_lt x rest) hx
        cases x with
        | obj w =>
            simp only [SanArrOK, Bool.and_eq_true] at h
            have hw := P2 w (lt_of_lt_of_le (lt_trans (szJ_kvs_lt_obj w) (szL_head_lt _ rest)) hx)
              h.1.2
            simp [noBannedArr, hw, P4 rest hrlt h.2]
        | null => simp only [SanArrOK] at h; simp [noBannedArr, P4 rest hrlt h]
        | bool b => simp only [SanArrOK] at h; simp [noBannedArr, P4 rest hrlt h]
        | num m => simp only [SanArrOK] at h; simp [noBannedArr, P4 rest hrlt h]
        | str t => simp only [SanArrOK] at h; simp [noBannedArr, P4 rest hrlt h]
        | arr ys => simp only [SanArrOK] at h; simp [noBannedArr, P4 rest hrlt h]

/-! ## Supporting lemmas for the claim theorems -/

theorem jGet_insertKV_self {k : String} {v : J} :
    ∀ kvs : List (String × J), jGet (insertKV kvs k v) k = some v := by
  intro kvs
  induction kvs with
  | nil => simp [insertKV, jGet]
  | cons p rest ih =>
      obtain ⟨k', v'⟩ := p
      by_cases hk : k' = k
      · simp [insertKV, hk, jGet]
      · simp [insertKV, hk, jGet, ih]

theorem jGetStr_eq_some {kvs : List (String × J)} {k s : String} :
    jGetStr kvs k = some s ↔ jGet kvs k = some (J.str s) := by
  cases h : jGet kvs k with
  | none => simp [jGetStr, h]
  | some v => cases v <;> simp [jGetStr, h]

theorem sigLookup_sigInsert_self {sid : String} {e : SignatureEntry} :
    ∀ st : SigStore, sigLookup (sigInsert st sid e) sid = some e := by
  intro st
  induction st with
  | nil => simp [sigInsert, sigLookup]
  | cons p rest ih =>
      obtain ⟨k, e'⟩ := p
      by_cases hk : k = sid
      · simp [sigInsert, hk, sigLookup]
      · simp [sigInsert, hk, sigLookup, ih]

theorem sigLookup_sigInsert_ne {sid sid' : String} {e : SignatureEntry} (h : sid' ≠ sid) :
    ∀ st : SigStore, sigLookup (sigInsert st sid e) sid' = sigLookup st sid' := by
  intro st
  have hss : ¬ sid = sid' := fun he => h he.symm
  induction st with
  | nil => simp [sigInsert, sigLookup, hss]
  | cons p rest ih =>
      obtain ⟨k, e'⟩ := p
      by_cases hk : k = sid
      · subst hk
        simp [sigInsert, sigLookup, hss]
      · simp [sigInsert, hk, sigLookup, ih]

/-- One store call never shrinks the stored signature of any fingerprint. -/
theorem storedSigLen_le_store (store : SigStore) (ttl now : Nat) (sid' sig : String)
    (sid : String) :
    storedSigLen store sid ≤ storedSigLen (StoreSignatureForSession store ttl now sid' sig) sid := by
  unfold StoreSignatureForSession
  by_cases hg : sid' = "" ∨ sig = ""
  · simp [hg]
  · simp only [hg, if_false]
    cases hl : sigLookup store sid' with
    | none =>
        by_cases hsid : sid = sid'
        · subst hsid
          simp [storedSigLen, hl, sigLookup_sigInsert_self]
        · simp [storedSigLen, sigLookup_sigInsert_ne hsid]
    | some entry =>
        by_cases hlen : entry.signature.length < sig.length
        · simp only [hlen, if_true]
          by_cases hsid : sid = sid'
          · subst hsid
            simp [storedSigLen, hl, sigLookup_sigInsert_self]
            omega
          · simp [storedSigLen, sigLookup_sigInsert_ne hsid]
        · simp [hlen]

theorem storedSigLen_le_runStores (ops : List StoreOp) :
    ∀ (store : SigStore) (sid : String),
      storedSigLen store sid ≤ storedSigLen (runStores store ops) sid := by
  induction ops with
  | nil => intro store sid; simp [runStores]
  | cons op rest ih =>
      intro store sid
      obtain ⟨ttl, now, sid', sig⟩ := op
      calc storedSigLen store sid
          ≤ storedSigLen (StoreSignatureForSession store ttl now sid' sig) sid :=
            storedSigLen_le_store store ttl now sid' sig sid
        _ ≤ storedSigLen (runStores (StoreSignatureForSession store ttl now sid' sig) rest) sid :=
            ih _ sid
        _ = storedSigLen (runStores store ((ttl, now, sid', sig) :: rest)) sid := by
            simp [runStores]

theorem storeThought_len_le (g sig : String) :
    g.length ≤ (StoreThoughtSignature g sig).length := by
  unfold StoreThoughtSignature
  by_cases h1 : sig = ""
  · simp [h1]
  · simp only [h1, if_false]
    by_cases h2 : g = "" ∨ g.length < sig.length
    · rcases h2 with h2 | h2
      · simp [h2]
      · simp [Or.inr h2]
        omega
    · simp [h2]

theorem storeThought_foldl_le (sigs : List String) :
    ∀ g : String, g.length ≤ (sigs.foldl StoreThoughtSignature g).length := by
  induction sigs with
  | nil => intro g; simp
  | cons x rest ih =>
      intro g
      calc g.length ≤ (StoreThoughtSignature g x).length := storeThought_len_le g x
        _ ≤ (rest.foldl StoreThoughtSignature (StoreThoughtSignature g x)).length := ih _
        _ = ((x :: rest).foldl StoreThoughtSignature g).length := by simp

/-! ## Claim theorems -/

/-- C1: `StoreSignatureForSession` and the legacy `StoreThoughtSignature` shim
are no-ops on the empty signature, insert or replace an entry only when the new
signature is strictly longer than the existing one, and consequently the length
of the stored signature at any fingerprint never decreases over any sequence of
store operations. -/
theorem signatureStore_monotone_c1 :
    (∀ (store : SigStore) (ttl now : Nat) (sid : String),
        StoreSignatureForSession store ttl now sid "" = store)
  ∧ (∀ g : String, StoreThoughtSignature g "" = g)
  ∧ (∀ (store : SigStore) (ttl now : Nat) (sid sig : String) (e : SignatureEntry),
        sigLookup store sid = some e → sig.length ≤ e.signature.length →
        StoreSignatureForSession store ttl now sid sig = store)
  ∧ (∀ (store : SigStore) (ttl now : Nat) (sid sig : String),
        sid ≠ "" → sig ≠ "" → storedSigLen store sid < sig.length →
        sigLookup (StoreSignatureForSession store ttl now sid sig) sid
          = some ⟨sig, now + ttl, now⟩)
  ∧ (∀ g sig : String, g ≠ "" → ¬ g.length < sig.length → StoreThoughtSignature g sig = g)
  ∧ (∀ (ops : List StoreOp) (store : SigStore) (sid : String),
        storedSigLen store sid ≤ storedSigLen (runStores store ops) sid)
  ∧ (∀ (g : String) (sigs : List String),
        g.length ≤ (sigs.foldl StoreThoughtSignature g).length) := by
  refine ⟨?_, ?_, ?_, ?_, ?_, ?_, ?_⟩
  · intro store ttl now sid; simp [StoreSignatureForSession]
  · intro g; simp [StoreThoughtSignature]
  · intro store ttl now sid sig e hl hle
    unfold StoreSignatureForSession
    by_cases hg : sid = "" ∨ sig = ""
    · simp [hg]
    · have hnl : ¬ e.signature.length < sig.length := by omega
      simp [hg, hl, hnl]
  · intro store ttl now sid sig hsid hsig hlt
    unfold StoreSignatureForSession
    have hg : ¬ (sid = "" ∨ sig = "") := by
      rintro (h | h)
      · exact hsid h
      · exact hsig h
    cases hl : sigLookup store sid with
    | none => simp [hg, hl, sigLookup_sigInsert_self]
    | some e =>
        have hlen : e.signature.length < sig.length := by
          have : storedSigLen store sid = e.signature.length := by simp [storedSigLen, hl]
          omega
        simp [hg, hl, hlen, sigLookup_sigInsert_self]
  · intro g sig hg hnl
    unfold StoreThoughtSignature
    by_cases h1 : sig = ""
    · simp [h1]
    · have : ¬ (g = "" ∨ g.length < sig.length) := by
        rintro (h | h)
        · exact hg h
        · exact hnl h
      simp [h1, this]
  · exact fun ops store sid => storedSigLen_le_runStores ops store sid
  · exact fun g sigs => storeThought_foldl_le sigs g

/-- Witness for C1 at concrete inputs: the empty signature is a no-op, a longer
signature is inserted, and a shorter one does not replace the stored entry. -/
theorem signatureStore_monotone_c1_witness :
    StoreSignatureForSession [] 3600 0 "fp" "" = ([] : SigStore)
  ∧ sigLookup (StoreSignatureForSession [] 3600 0 "fp" "abc") "fp"
      = some ⟨"abc", 3600, 0⟩
  ∧ StoreSignatureForSession [("fp", ⟨"abc", 3600, 0⟩)] 3600 5 "fp" "xy"
      = [("fp", ⟨"abc", 3600, 0⟩)] := by
  refine ⟨signatureStore_monotone_c1.1 [] 3600 0 "fp", ?_, ?_⟩
  · exact signatureStore_monotone_c1.2.2.2.1 [] 3600 0 "fp" "abc"
      (by decide) (by decide) (by decide)
  · exact signatureStore_monotone_c1.2.2.1 [("fp", ⟨"abc", 3600, 0⟩)] 3600 5 "fp" "xy"
      ⟨"abc", 3600, 0⟩ (by decide) (by decide)

/-- C8: `HasValidSignature` holds for every block whose `type` is a string
other than "thinking", and for a thinking block it holds exactly when the
signature has length ≥ 50 or a non-empty signature is attached to an empty
thinking text (the trailing-signature shape). -/
theorem hasValidSignature_c8 :
    (∀ (block : List (String × J)) (t : String),
        jGetStr block "type" = some t → t ≠ "thinking" → HasValidSignature block = true)
  ∧ (∀ block : List (String × J),
        jGetStr block "type" = some "thinking" →
        (HasValidSignature block = true ↔
          MinSignatureLength ≤ (jStrD block "signature").length
          ∨ (jStrD block "thinking" = "" ∧ jStrD block "signature" ≠ ""))) := by
  constructor
  · intro block t ht hne
    simp [HasValidSignature, ht, hne]
  · intro block ht
    have hkey : HasValidSignature block = hasValidSigCore block := by
      simp [HasValidSignature, ht]
    rw [hkey]
    unfold hasValidSigCore
    by_cases hth : jStrD block "thinking" = "" <;>
      by_cases hsg : jStrD block "signature" = ""
    · have : (jStrD block "signature").length = 0 := by rw [hsg]; rfl
      simp [hth, hsg, MinSignatureLength, this]
    · simp [hth, hsg]
    · have : (jStrD block "signature").length = 0 := by rw [hsg]; rfl
      simp [hth, hsg, MinSignatureLength, this]
    · simp [hth, hsg, MinSignatureLength]

/-- Witness for C8: a text block is always valid, and a trailing signature on
an empty thinking block is valid. -/
theorem hasValidSignature_c8_witness :
    HasValidSignature [("type", J.str "text"), ("text", J.str "hi")] = true
  ∧ HasValidSignature [("type", J.str "thinking"), ("thinking", J.str ""),
      ("signature", J.str "x")] = true := by
  constructor
  · exact hasValidSignature_c8.1 [("type", J.str "text"), ("text", J.str "hi")] "text"
      rfl (by decide)
  · exact (hasValidSignature_c8.2 [("type", J.str "thinking"), ("thinking", J.str ""),
      ("signature", J.str "x")] rfl).mpr (Or.inr ⟨rfl, by decide⟩)

/-! ### C2: the invalid-thinking filter -/

theorem filterOneBlock_eq_spec (g : String) (b : J) :
    filterOneBlock g b = specFourStepBlock g b := by
  cases b with
  | obj bm =>
      by_cases ht : jStrD bm "type" = "thinking"
      · by_cases hv : HasValidSignature bm = true
        · simp [filterOneBlock, specFourStepBlock, ht, hv]
        · have hv' : HasValidSignature bm = false := by
            rcases Bool.eq_false_or_eq_true (HasValidSignature bm) with h | h
            · exact absurd h hv
            · exact h
          by_cases hlen : MinSignatureLength ≤ g.length
          · have hg : ¬ g = "" := by
              intro he
              rw [he] at hlen
              simp [MinSignatureLength] at hlen
            simp [filterOneBlock, specFourStepBlock, ht, hv', hlen, hg]
          · by_cases htr : trimSpace (jStrD bm "thinking") = "" <;>
              simp [filterOneBlock, specFourStepBlock, ht, hv', hlen, htr]
      · simp [filterOneBlock, specFourStepBlock, ht]
  | null => rfl
  | bool b => rfl
  | num m => rfl
  | str t => rfl
  | arr xs => rfl

theorem filterMessage_eq_rule (g : String) (m : J) :
    filterMessage g m = ruleFilterMessage (filterOneBlock g) m := by
  cases m with
  | obj mm =>
      by_cases hr : jStrD mm "role" = "assistant" ∨ jStrD mm "role" = "model"
      · cases hc : jGet mm "content" with
        | none => simp [filterMessage, ruleFilterMessage, hr, hc]
        | some v =>
            cases v with
            | arr content =>
                by_cases he : (content.map (filterOneBlock g)).flatten = []
                · simp [filterMessage, ruleFilterMessage, hr, hc, he]
                · have he' : (content.map (filterOneBlock g)).flatten.isEmpty = false := by
                    rcases Bool.eq_false_or_eq_true
                        ((content.map (filterOneBlock g)).flatten.isEmpty) with h | h
                    · exact absurd (List.isEmpty_iff.mp h) he
                    · exact h
                  simp [filterMessage, ruleFilterMessage, hr, hc, he, he']
            | null => simp [filterMessage, ruleFilterMessage, hr, hc]
            | bool b => simp [filterMessage, ruleFilterMessage, hr, hc]
            | num i => simp [filterMessage, ruleFilterMessage, hr, hc]
            | str t => simp [filterMessage, ruleFilterMessage, hr, hc]
            | obj w => simp [filterMessage, ruleFilterMessage, hr, hc]
      · simp [filterMessage, ruleFilterMessage, hr]
  | null => rfl
  | bool b => rfl
  | num i => rfl
  | str t => rfl
  | arr xs => rfl

theorem filterMessage_content_ne_nil (g : String) (orig : J)
    (kvs : List (String × J)) (blocks : List J) :
    filterMessage g orig = J.obj kvs →
    (jStrD kvs "role" = "assistant" ∨ jStrD kvs "role" = "model") →
    jGet kvs "content" = some (J.arr blocks) → blocks ≠ [] := by
  cases orig with
  | null => intro h; exact absurd h (by simp [filterMessage])
  | bool b => intro h; exact absurd h (by simp [filterMessage])
  | num i => intro h; exact absurd h (by simp [filterMessage])
  | str t => intro h; exact absurd h (by simp [filterMessage])
  | arr xs => intro h; exact absurd h (by simp [filterMessage])
  | obj mm =>
      by_cases hr : jStrD mm "role" = "assistant" ∨ jStrD mm "role" = "model"
      · cases hc : jGet mm "content" with
        | none =>
            intro h hrole hcontent
            have hk : kvs = mm := by
              have := h
              simp [filterMessage, hr, hc] at this
              exact this.symm
            rw [hk] at hcontent
            rw [hc] at hcontent
            cases hcontent
        | some v =>
            cases v with
            | arr content =>
                intro h hrole hcontent
                have hk : kvs = insertKV mm "content"
                    (J.arr (if (content.map (filterOneBlock g)).flatten = []
                      then [J.obj [("type", J.str "text"), ("text", J.str "")]]
                      else (content.map (filterOneBlock g)).flatten)) := by
                  have := h
                  simp only [filterMessage, hr, if_true, hc] at this
                  exact (J.obj.inj this).symm
                rw [hk, jGet_insertKV_self] at hcontent
                have hb : blocks = (if (content.map (filterOneBlock g)).flatten = []
                    then [J.obj [("type", J.str "text"), ("text", J.str "")]]
                    else (content.map (filterOneBlock g)).flatten) := by
                  have := J.arr.inj (Option.some.inj hcontent)
                  exact this.symm
                rw [hb]
                by_cases he : (content.map (filterOneBlock g)).flatten = []
                · simp [he]
                · simp [he]
            | null =>
                intro h hrole hcontent
                have hk : kvs = mm := by
                  have := h
                  simp [filterMessage, hr, hc] at this
                  exact this.symm
                rw [hk, hc] at hcontent
                cases hcontent
            | bool b =>
                intro h hrole hcontent
                have hk : kvs = mm := by
                  have := h
                  simp [filterMessage, hr, hc] at this
                  exact this.symm
                rw [hk, hc] at hcontent
                cases hcontent
            | num i =>
                intro h hrole hcontent
                have hk : kvs = mm := by
                  have := h
                  simp [filterMessage, hr, hc] at this
                  exact this.symm
                rw [hk, hc] at hcontent
                cases hcontent
            | str t =>
                intro h hrole hcontent
                have hk : kvs = mm := by
                  have := h
                  simp [filterMessage, hr, hc] at this
                  exact this.symm
                rw [hk, hc] at hcontent
                cases hcontent
            | obj w =>
                intro h hrole hcontent
                have hk : kvs = mm := by
                  have := h
                  simp [filterMessage, hr, hc] at this
                  exact this.symm
                rw [hk, hc] at hcontent
                cases hcontent
      · intro h hrole hcontent
        have hk : kvs = mm := by
          have := h
          simp [filterMessage, hr] at this
          exact this.symm
        rw [hk] at hrole
        exact absurd hrole hr

/-- C2 (amended): the filter transforms assistant/model messages with array
content by the amended four-step rule — keep a valid thinking block rebuilt from
its `type`, `thinking` and non-empty `signature` fields; else repair with the
stored signature when it has length ≥ 50; else demote to text when the thinking
text contains a non-whitespace character; else drop — stripping `cache_control`
from non-thinking blocks, and every processed assistant/model message keeps at
least one content block. -/
theorem filterThinking_c2_amended :
    (∀ (g : String) (msgs : List J), FilterInvalidThinkingBlocks g msgs = specFilter g msgs)
  ∧ (∀ (g : String) (msgs : List J) (kvs : List (String × J)) (blocks : List J),
        J.obj kvs ∈ FilterInvalidThinkingBlocks g msgs →
        (jStrD kvs "role" = "assistant" ∨ jStrD kvs "role" = "model") →
        jGet kvs "content" = some (J.arr blocks) → blocks ≠ []) := by
  constructor
  · intro g msgs
    have hfun : filterOneBlock g = specFourStepBlock g := funext (filterOneBlock_eq_spec g)
    unfold FilterInvalidThinkingBlocks specFilter
    refine List.map_congr_left (fun m _ => ?_)
    rw [filterMessage_eq_rule, hfun]
  · intro g msgs kvs blocks hmem hrole hcontent
    rcases List.mem_map.mp hmem with ⟨orig, _, horig⟩
    exact filterMessage_content_ne_nil g orig kvs blocks horig hrole hcontent

/-- Counterexample for C2 as stated: a thinking block whose text is the single
space " " (non-empty) with no usable signature is dropped by the code (leaving
an inserted empty text block), not demoted to a text block as the claimed rule
requires; and a valid thinking block's extra fields are dropped, not kept. -/
theorem filterThinking_c2_counterexample :
    (FilterInvalidThinkingBlocks "" [J.obj [("role", J.str "assistant"),
        ("content", J.arr [J.obj [("type", J.str "thinking"), ("thinking", J.str " ")]])]]
      = [J.obj [("role", J.str "assistant"),
          ("content", J.arr [J.obj [("type", J.str "text"), ("text", J.str "")]])]])
  ∧ (claimedFilter "" [J.obj [("role", J.str "assistant"),
        ("content", J.arr [J.obj [("type", J.str "thinking"), ("thinking", J.str " ")]])]]
      = [J.obj [("role", J.str "assistant"),
          ("content", J.arr [J.obj [("type", J.str "text"), ("text", J.str " ")]])]])
  ∧ (FilterInvalidThinkingBlocks "" [J.obj [("role", J.str "assistant"),
        ("content", J.arr [J.obj [("type", J.str "thinking"), ("thinking", J.str " ")]])]]
      ≠ claimedFilter "" [J.obj [("role", J.str "assistant"),
        ("content", J.arr [J.obj [("type", J.str "thinking"), ("thinking", J.str " ")]])]])
  ∧ (FilterInvalidThinkingBlocks "" [J.obj [("role", J.str "assistant"),
        ("content", J.arr [J.obj [("type", J.str "thinking"), ("thinking", J.str "abc"),
          ("signature", J.str "01234567890123456789012345678901234567890123456789"),
          ("extra", J.num 1)]])]]
      ≠ claimedFilter "" [J.obj [("role", J.str "assistant"),
        ("content", J.arr [J.obj [("type", J.str "thinking"), ("thinking", J.str "abc"),
          ("signature", J.str "01234567890123456789012345678901234567890123456789"),
          ("extra", J.num 1)]])]]) := by
  refine ⟨by decide, by decide, by decide, by decide⟩

/-- Witness for C2 (amended) at concrete inputs: the filter agrees with the
amended rule on a message whose filtering empties the content, and the
resulting message keeps one (empty text) block. -/
theorem filterThinking_c2_witness :
    (FilterInvalidThinkingBlocks "" [J.obj [("role", J.str "assistant"),
        ("content", J.arr [J.obj [("type", J.str "thinking"), ("thinking", J.str "")]])]]
      = specFilter "" [J.obj [("role", J.str "assistant"),
        ("content", J.arr [J.obj [("type", J.str "thinking"), ("thinking", J.str "")]])]])
  ∧ ([J.obj [("type", J.str "text"), ("text", J.str "")]] : List J) ≠ [] := by
  constructor
  · exact filterThinking_c2_amended.1 "" [J.obj [("role", J.str "assistant"),
      ("content", J.arr [J.obj [("type", J.str "thinking"), ("thinking", J.str "")]])]]
  · exact filterThinking_c2_amended.2 ""
      [J.obj [("role", J.str "assistant"),
        ("content", J.arr [J.obj [("type", J.str "thinking"), ("thinking", J.str "")]])]]
      [("role", J.str "assistant"),
        ("content", J.arr [J.obj [("type", J.str "text"), ("text", J.str "")]])]
      [J.obj [("type", J.str "text"), ("text", J.str "")]]
      (by decide) (by decide) (by decide)

/-! ### C4, C5: the schema sanitizers -/

/-- Counterexample for C4 as stated: `sanitizeJSONSchema` keeps `minLength`
and `cleanGeminiSchema` keeps `pattern`, both on the claim's drop list. -/
theorem sanitizer_c4_counterexample :
    sanitizeJSONSchema (J.obj [("minLength", J.num 5)]) = J.obj [("minLength", J.num 5)]
  ∧ cleanGeminiSchema (J.obj [("pattern", J.str "x")]) = J.obj [("pattern", J.str "x")] := by
  constructor
  · simp [sanitizeJSONSchema, sanEntries, sanStep, skipField, insertKV]
  · simp [cleanGeminiSchema, cleanGEntries, geminiSkipField, insertKV]

/-- C4 (amended): in every object reached by `sanitizeJSONSchema`'s recursion
(through object values and object elements of arrays, property names exempt),
the output carries none of `additionalProperties`, `$schema`, `title`,
`default` and no empty `required`; `cleanGeminiSchema`'s output likewise
carries none of `additionalProperties`, `default`, `$schema` in the objects its
recursion reaches. The other keys on the claim's list are preserved. -/
theorem sanitizer_c4_amended (s : J) :
    noBannedV (sanitizeJSONSchema s) = true ∧ gCleanV (cleanGeminiSchema s) = true := by
  constructor
  · have hsan := ((sanitizeMain (sizeOf s)).1 s le_rfl).1
    exact (sanToNoBanned (sizeOf (sanitizeJSONSchema s))).1 _ le_rfl hsan
  · exact (cleanGeminiMain (sizeOf s)).1 s le_rfl

/-- C5: the schema sanitizer is idempotent — sanitizing an already-sanitized
value yields an equal value, for every input. -/
theorem sanitize_idempotent_c5 (s : J) :
    sanitizeJSONSchema (sanitizeJSONSchema s) = sanitizeJSONSchema s :=
  ((sanitizeMain (sizeOf (sanitizeJSONSchema s))).1 _ le_rfl).2
    (((sanitizeMain (sizeOf s)).1 s le_rfl).1)

/-! ### C7: finish-reason normalization -/

/-- Counterexample for C7 as stated: `convertStopReason` maps `tool_use` to
"stop", not to "tool_calls". -/
theorem stopReason_c7_counterexample :
    convertStopReason (some (J.str "tool_use")) = "stop"
  ∧ convertStopReason (some (J.str "tool_use")) ≠ "tool_calls" := by
  exact ⟨rfl, by decide⟩

/-- C7 (amended): the Anthropic-to-OpenAI conversion maps `end_turn` to stop,
`max_tokens` to length, `stop_sequence` to stop, and every other stop reason —
including `tool_use` — to stop; the Gemini-to-OpenAI conversion maps STOP to
stop, MAX_TOKENS to length, and SAFETY and RECITATION to content_filter. -/
theorem stopReason_c7_amended :
    convertStopReason (some (J.str "end_turn")) = "stop"
  ∧ convertStopReason (some (J.str "max_tokens")) = "length"
  ∧ convertStopReason (some (J.str "stop_sequence")) = "stop"
  ∧ (∀ r : String, r ≠ "max_tokens" → convertStopReason (some (J.str r)) = "stop")
  ∧ geminiFinishReasonToOpenAI "STOP" = "stop"
  ∧ geminiFinishReasonToOpenAI "MAX_TOKENS" = "length"
  ∧ geminiFinishReasonToOpenAI "SAFETY" = "content_filter"
  ∧ geminiFinishReasonToOpenAI "RECITATION" = "content_filter" := by
  refine ⟨rfl, rfl, rfl, ?_, rfl, rfl, ?_, ?_⟩
  · intro r hr
    unfold convertStopReason
    by_cases h1 : r = "end_turn"
    · simp [h1]
    · by_cases h2 : r = "max_tokens"
      · exact absurd h2 hr
      · by_cases h3 : r = "stop_sequence" <;> simp [h1, h2, h3]
  · rfl
  · rfl

/-- Witness for C7 (amended): the default clause applied at `tool_use`. -/
theorem stopReason_c7_witness :
    convertStopReason (some (J.str "tool_use")) = "stop" :=
  stopReason_c7_amended.2.2.2.1 "tool_use" (by decide)

/-! ### C9: the session fingerprint -/

/-- C9: the fingerprint depends only on the role and extracted (truncated)
text of the first three messages — two message lists with equal projections get
the identical fingerprint, for every digest and marshalling function — and the
empty message list yields the empty fingerprint. -/
theorem sessionID_c9 :
    (∀ (digest : String → String) (marshal : J → String) (msgs1 msgs2 : List J),
        sessionProj marshal msgs1 = sessionProj marshal msgs2 →
        GenerateSessionID digest marshal msgs1 = GenerateSessionID digest marshal msgs2)
  ∧ (∀ (digest : String → String) (marshal : J → String),
        GenerateSessionID digest marshal [] = "") := by
  constructor
  · intro digest marshal msgs1 msgs2 hproj
    have hparts : ∀ l : List J,
        l.filterMap (fun m =>
          match m with
          | J.obj msgMap =>
              some (jStrD msgMap "role" ++ ":"
                ++ extractContentForHash marshal (jGetD msgMap "content"))
          | _ => none)
        = (l.map (fun m =>
            match m with
            | J.obj msgMap =>
                some (jStrD msgMap "role",
                  extractContentForHash marshal (jGetD msgMap "content"))
            | _ => none)).filterMap
              (fun o => o.map (fun rc => rc.1 ++ ":" ++ rc.2)) := by
      intro l
      induction l with
      | nil => rfl
      | cons m t ih => cases m <;> simp [List.filterMap_cons, ih]
    have hempty : ∀ msgs : List J, msgs.isEmpty = (sessionProj marshal msgs).isEmpty := by
      intro msgs; cases msgs <;> simp [sessionProj]
    have hemp12 : msgs1.isEmpty = msgs2.isEmpty := by
      rw [hempty msgs1, hempty msgs2, hproj]
    unfold GenerateSessionID
    by_cases h1 : msgs1.isEmpty = true
    · rw [h1] at hemp12
      simp [h1, ← hemp12]
    · have h2 : ¬ msgs2.isEmpty = true := by
        rw [← hemp12]; exact h1
      simp only [h1, h2, if_false, Bool.false_eq_true]
      have hp1 := hparts (msgs1.take 3)
      have hp2 := hparts (msgs2.take 3)
      have hpr : sessionProj marshal msgs1 = (msgs1.take 3).map (fun m =>
          match m with
          | J.obj msgMap =>
              some (jStrD msgMap "role",
                extractContentForHash marshal (jGetD msgMap "content"))
          | _ => none) := rfl
      have hpr2 : sessionProj marshal msgs2 = (msgs2.take 3).map (fun m =>
          match m with
          | J.obj msgMap =>
              some (jStrD msgMap "role",
                extractContentForHash marshal (jGetD msgMap "content"))
          | _ => none) := rfl
      rw [hp1, hp2, ← hpr, ← hpr2, hproj]
  · intro digest marshal; simp [GenerateSessionID]

/-- Witness for C9: two four-message lists agreeing on the first three
messages (the fourth differs) receive the same fingerprint. -/
theorem sessionID_c9_witness :
    GenerateSessionID (fun s => s) (fun _ => "")
        [J.obj [("role", J.str "user"), ("content", J.str "hi")], J.null, J.bool true, J.num 1]
      = GenerateSessionID (fun s => s) (fun _ => "")
        [J.obj [("role", J.str "user"), ("content", J.str "hi")], J.null, J.bool true, J.num 2] :=
  sessionID_c9.1 (fun s => s) (fun _ => "") _ _ (by decide)

/-! ### C3: behaviour on an upstream 400 naming thought_signature -/

/-- C3 (code evaluation at the failing input): when the upstream answers the
single dispatch with HTTP 400 and a body containing `thought_signature`,
`ProxyRequest` returns that status and body to the caller unchanged after
exactly one dispatch — no thinking block is demoted and no second dispatch
happens. -/
theorem proxyRequest_c3_no_retry :
    proxyRequestOutcome (fun _ => "") (fun _ _ _ => J.null) (fun _ => none) (fun _ v => v)
        ⟨false, "", ""⟩ ⟨"r", "https://api.example.com", "", 1⟩
        "REQ" [("model", J.str "m")]
        ⟨400, "error: thought_signature invalid"⟩
      = Except.ok ⟨["REQ"], 400, "error: thought_signature invalid"⟩
  ∧ strContains "error: thought_signature invalid" "thought_signature" = true := by
  exact ⟨rfl, by decide⟩

/-! ### C6, C10: redirect routing -/

/-- Counterexample for C6 as stated: with redirect enabled
(keyword `proxy_auto`, target `claude-3-5-haiku`), the non-streaming path's
usage log receives the redirect target model, not the original keyword. -/
theorem redirect_c6_counterexample :
    proxyRequestPlan (fun _ => "") (fun _ _ _ => J.null)
        ⟨true, "proxy_auto", "claude-3-5-haiku"⟩ ⟨"r", "https://api.example.com", "", 1⟩
        "BODY" [("model", J.str "proxy_auto")]
      = Except.ok
          { lookupModel := "claude-3-5-haiku",
            reqData := [("model", J.str "claude-3-5-haiku")],
            requestBody := "", usedAdapter := false, adapterName := "anthropic",
            targetURL := "https://api.example.com/v1/chat/completions",
            transformedBody := "", loggedModel := "claude-3-5-haiku" }
  ∧ ("claude-3-5-haiku" : String) ≠ "proxy_auto" := by
  exact ⟨rfl, by decide⟩

/-- C6 (amended): when redirect is enabled and the request's model equals the
redirect keyword, both paths route as if the client had sent the target model
(route lookup uses the target, the body's model field is re-encoded to it); the
non-streaming path's usage-log rows record the redirect target model, while the
streaming path's rows record the original keyword. -/
theorem redirect_c6_amended :
    (∀ (marshal : J → String) (adaptReq : String → List (String × J) → String → J)
        (cfg : Config) (route : Route) (requestBody : String)
        (reqData : List (String × J)) (plan : ProxyPlan),
        cfg.redirectEnabled = true →
        jGetStr reqData "model" = some cfg.redirectKeyword →
        proxyRequestPlan marshal adaptReq cfg route requestBody reqData = Except.ok plan →
        plan.lookupModel = cfg.redirectTargetModel
        ∧ jGet plan.reqData "model" = some (J.str cfg.redirectTargetModel)
        ∧ plan.requestBody
            = marshal (J.obj (insertKV reqData "model" (J.str cfg.redirectTargetModel)))
        ∧ plan.loggedModel = cfg.redirectTargetModel)
  ∧ (∀ (marshal : J → String) (adaptReq : String → List (String × J) → String → J)
        (cfg : Config) (route : Route) (requestBody : String)
        (reqData : List (String × J)) (splan : StreamPlan),
        cfg.redirectEnabled = true →
        jGetStr reqData "model" = some cfg.redirectKeyword →
        proxyStreamPlan marshal adaptReq cfg route requestBody reqData = Except.ok splan →
        splan.lookupModel = cfg.redirectTargetModel
        ∧ splan.loggedModel = cfg.redirectKeyword) := by
  constructor
  · intro marshal adaptReq cfg route requestBody reqData plan hEn hm hok
    simp only [proxyRequestPlan, hm] at hok
    by_cases hkw : cfg.redirectKeyword = ""
    · rw [if_pos hkw] at hok; cases hok
    · rw [if_neg hkw] at hok
      simp only [hEn, Bool.true_and, decide_eq_true_eq] at hok
      simp only [eq_self_iff_true, if_true, true_and] at hok
      by_cases htg : cfg.redirectTargetModel = ""
      · rw [if_pos htg] at hok; cases hok
      · rw [if_neg htg] at hok
        split at hok <;>
          (have hplan := (Except.ok.inj hok).symm
           subst hplan
           exact ⟨rfl, jGet_insertKV_self reqData, rfl, rfl⟩)
  · intro marshal adaptReq cfg route requestBody reqData splan hEn hm hok
    simp only [proxyStreamPlan, hm] at hok
    by_cases hkw : cfg.redirectKeyword = ""
    · rw [if_pos hkw] at hok; cases hok
    · rw [if_neg hkw] at hok
      simp only [hEn, Bool.true_and, decide_eq_true_eq] at hok
      simp only [eq_self_iff_true, if_true, true_and] at hok
      by_cases htg : cfg.redirectTargetModel = ""
      · rw [if_pos htg] at hok; cases hok
      · rw [if_neg htg] at hok
        split at hok <;>
          (have hplan := (Except.ok.inj hok).symm
           subst hplan
           exact ⟨rfl, rfl⟩)

/-- Witness for C6 (amended) at the S4 configuration: both paths route
`proxy_auto` as `claude-3-5-haiku`; the non-streaming log row says
`claude-3-5-haiku`, the streaming log row says `proxy_auto`. -/
theorem redirect_c6_amended_witness :
    (("claude-3-5-haiku" : String) = "claude-3-5-haiku"
      ∧ jGet [("model", J.str "claude-3-5-haiku")] "model" = some (J.str "claude-3-5-haiku")
      ∧ ("" : String) = (fun _ => "")
          (J.obj (insertKV [("model", J.str "proxy_auto")] "model" (J.str "claude-3-5-haiku")))
      ∧ ("claude-3-5-haiku" : String) = "claude-3-5-haiku")
  ∧ (("claude-3-5-haiku" : String) = "claude-3-5-haiku"
      ∧ ("proxy_auto" : String) = "proxy_auto") := by
  constructor
  · exact redirect_c6_amended.1 (fun _ => "") (fun _ _ _ => J.null)
      ⟨true, "proxy_auto", "claude-3-5-haiku"⟩ ⟨"r", "https://api.example.com", "", 1⟩
      "BODY" [("model", J.str "proxy_auto")]
      { lookupModel := "claude-3-5-haiku",
        reqData := [("model", J.str "claude-3-5-haiku")],
        requestBody := "", usedAdapter := false, adapterName := "anthropic",
        targetURL := "https://api.example.com/v1/chat/completions",
        transformedBody := "", loggedModel := "claude-3-5-haiku" }
      rfl rfl rfl
  · exact redirect_c6_amended.2 (fun _ => "") (fun _ _ _ => J.null)
      ⟨true, "proxy_auto", "claude-3-5-haiku"⟩ ⟨"r", "https://api.example.com", "", 1⟩
      "BODY" [("model", J.str "proxy_auto")]
      { lookupModel := "claude-3-5-haiku", originalModel := "proxy_auto",
        usedAdapter := true, adapterName := "anthropic",
        targetURL := "https://api.example.com/v1/messages",
        transformedBody := "", loggedModel := "proxy_auto" }
      rfl rfl rfl

/-- C10 (implicit): whenever the configured redirect target differs from the
redirect keyword, the non-streaming path never takes the adapter branch — the
request is forwarded to the trimmed route URL plus `/v1/chat/completions` with
the (possibly redirect-re-encoded) body passed through byte-for-byte, with no
transcoding, thinking filtering or schema sanitizing. -/
theorem proxyPassthrough_c10 :
    ∀ (marshal : J → String) (adaptReq : String → List (String × J) → String → J)
      (cfg : Config) (route : Route) (requestBody : String)
      (reqData : List (String × J)) (plan : ProxyPlan),
      cfg.redirectTargetModel ≠ cfg.redirectKeyword →
      proxyRequestPlan marshal adaptReq cfg route requestBody reqData = Except.ok plan →
      plan.usedAdapter = false
      ∧ plan.targetURL = trimSuffixSlash route.apiUrl ++ "/v1/chat/completions"
      ∧ plan.transformedBody = plan.requestBody := by
  intro marshal adaptReq cfg route requestBody reqData plan hTK hok
  cases hms : jGetStr reqData "model" with
  | none => simp [proxyRequestPlan, hms] at hok
  | some model0 =>
      simp only [proxyRequestPlan, hms] at hok
      by_cases h0 : model0 = ""
      · rw [if_pos h0] at hok; cases hok
      · rw [if_neg h0] at hok
        by_cases hred : (cfg.redirectEnabled && decide (model0 = cfg.redirectKeyword)) = true
        · simp only [hred] at hok
          simp only [eq_self_iff_true, if_true, true_and] at hok
          by_cases htg : cfg.redirectTargetModel = ""
          · rw [if_pos htg] at hok; cases hok
          · rw [if_neg htg] at hok
            split at hok
            · next hg =>
                exfalso
                obtain ⟨_, _, hg3⟩ := hg
                rw [jGet_insertKV_self] at hg3
                exact hTK (J.str.inj (Option.some.inj hg3))
            · next hg =>
                have hplan := (Except.ok.inj hok).symm
                subst hplan
                exact ⟨rfl, rfl, rfl⟩
        · have hred' : (cfg.redirectEnabled && decide (model0 = cfg.redirectKeyword)) = false := by
            rcases Bool.eq_false_or_eq_true
                (cfg.redirectEnabled && decide (model0 = cfg.redirectKeyword)) with h | h
            · exact absurd h hred
            · exact h
          simp only [hred'] at hok
          simp only [Bool.false_eq_true, false_and, if_false] at hok
          split at hok
          · next hg =>
              exfalso
              obtain ⟨_, hEn2, hg3⟩ := hg
              have hjg : jGet reqData "model" = some (J.str model0) := jGetStr_eq_some.mp hms
              rw [hjg] at hg3
              have hm0 : model0 = cfg.redirectKeyword := J.str.inj (Option.some.inj hg3)
              rw [hEn2, hm0] at hred
              simp at hred
          · next hg =>
              have hplan := (Except.ok.inj hok).symm
              subst hplan
              exact ⟨rfl, rfl, rfl⟩

/-- Witness for C10 at a concrete configuration whose target differs from the
keyword: the body is passed through to `/v1/chat/completions`. -/
theorem proxyPassthrough_c10_witness :
    (false = false)
  ∧ ("https://api.example.com/v1/chat/completions" : String)
      = trimSuffixSlash "https://api.example.com" ++ "/v1/chat/completions"
  ∧ ("" : String) = ("" : String) := by
  exact proxyPassthrough_c10 (fun _ => "") (fun _ _ _ => J.null)
    ⟨true, "proxy_auto", "claude-3-5-haiku"⟩ ⟨"r", "https://api.example.com", "", 1⟩
    "BODY" [("model", J.str "proxy_auto")]
    { lookupModel := "claude-3-5-haiku",
      reqData := [("model", J.str "claude-3-5-haiku")],
      requestBody := "", usedAdapter := false, adapterName := "anthropic",
      targetURL := "https://api.example.com/v1/chat/completions",
      transformedBody := "", loggedModel := "claude-3-5-haiku" }
    (by decide) rfl

end AnyProxy
